import Mathlib

/-!
# gox: platform table and version resolution (platform.go)

A shallow embedding of `platform.go`.

* A Go `string` is a sequence of bytes; it is embedded as `List Nat`, one
  number per byte.  `str` turns an ASCII literal into its bytes.
* A Go slice is a header (backing array, length, capacity); `append` writes in
  place when the capacity allows it and allocates a fresh array otherwise, so
  the package-level snapshots are built by explicit state passing over a heap
  of backing arrays.
* `SupportedPlatforms` returns an `Outcome`: the lines it logged and either the
  slice it returned or the value it panicked with.
-/

namespace Gox

/-- A Go string: its bytes, in order. -/
abbrev GoString := List Nat

/-- The bytes of an ASCII literal. -/
def str (s : String) : GoString := s.toList.map Char.toNat

namespace strings

/-- Go `strings.HasPrefix(s, p)`: `s` begins with the bytes of `p`. -/
def HasPrefix (s p : GoString) : Bool := s.take p.length == p

end strings

/-! ## Platform -/

/-- Platform is a combination of OS/arch that can be built against. -/
structure Platform where
  OS : GoString
  Arch : GoString
  Default : Bool
  ARM : GoString
deriving DecidableEq, Repr

/-- The zero value of `Platform` (what a fresh backing array holds). -/
def Platform.zero : Platform := ⟨[], [], false, []⟩

/-- Go `PlatformFromString(os, arch)`. -/
def PlatformFromString (os arch : GoString) : Platform :=
  if strings.HasPrefix arch (str "armv") && decide (arch.length ≥ 5) then
    { OS := os, Arch := str "arm", Default := false, ARM := arch.drop 4 }
  else
    { OS := os, Arch := arch, Default := false, ARM := [] }

/-- Go `(*Platform).GetARMVersion`. -/
def Platform.GetARMVersion (p : Platform) : GoString :=
  if p.ARM.length > 0 then str "v" ++ p.ARM else []

/-- Go `(*Platform).GetArch`: `fmt.Sprintf("%s%s", p.Arch, p.GetARMVersion())`. -/
def Platform.GetArch (p : Platform) : GoString :=
  p.Arch ++ p.GetARMVersion

/-- Go `(*Platform).String`: `fmt.Sprintf("%s/%s", p.OS, p.GetArch())`. -/
def Platform.String (p : Platform) : GoString :=
  p.OS ++ str "/" ++ p.GetArch

/-! ## Slices and `append` -/

/-- A Go slice header.  Every slice of this program starts at index 0 of its
backing array, so the header is the array, the length and the capacity. -/
structure Slice where
  arr : Nat
  len : Nat
  cap : Nat
deriving DecidableEq, Repr

/-- The backing arrays allocated so far, in allocation order; the array with
identity `i` is entry `i`, and its length is its capacity. -/
abbrev Heap := List (List Platform)

/-- The elements a slice header shows in a heap. -/
def Heap.load (h : Heap) (s : Slice) : List Platform :=
  (h.getD s.arr []).take s.len

/-- The loop of the runtime growth rule for capacities of 256 and more:
`newcap += (newcap + 3*256) >> 2` until `newcap >= newLen`. -/
def growLoop : Nat → Nat → Nat → Nat
  | 0, newcap, _ => newcap
  | fuel + 1, newcap, newLen =>
    let c := newcap + (newcap + 768) / 4
    if c ≥ newLen then c else growLoop fuel c newLen

/-- The capacity the Go runtime picks when `append` has to grow a slice of
capacity `oldCap` to hold `newLen` elements (`nextslicecap`): the needed length
when it is more than double, double the capacity below 256 elements.  The
allocator may round the result up to a size class; that never lowers it (for
the table of this file it leaves 22 and raises 44 to 47 or 48, depending on
the Go release, so it changes no decision of `goAppend`). -/
def growCap (oldCap newLen : Nat) : Nat :=
  let doublecap := oldCap + oldCap
  if newLen > doublecap then newLen
  else if oldCap < 256 then doublecap
  else growLoop newLen oldCap newLen

/-- Overwrite the cells of an array from index `i` on with `xs`. -/
def writeAt (a : List Platform) (i : Nat) (xs : List Platform) : List Platform :=
  a.take i ++ xs ++ a.drop (i + xs.length)

/-- A slice literal `[]Platform{...}`: a fresh array exactly as long as the
literal. -/
def sliceLit (h : Heap) (xs : List Platform) : Heap × Slice :=
  (h ++ [xs], ⟨h.length, xs.length, xs.length⟩)

/-- Go `append(s, xs...)`.  When the capacity suffices the new elements are
written into the array of `s` after its length and the result shares that
array; otherwise a new array is allocated and the old elements copied. -/
def goAppend (h : Heap) (s : Slice) (xs : List Platform) : Heap × Slice :=
  let n := s.len + xs.length
  if n ≤ s.cap then
    (h.set s.arr (writeAt (h.getD s.arr []) s.len xs), ⟨s.arr, n, s.cap⟩)
  else
    let c := growCap s.cap n
    (h ++ [h.load s ++ xs ++ List.replicate (c - n) Platform.zero], ⟨h.length, n, c⟩)

/-! ## The platform table

The package-level variables are initialised in declaration order; each step
takes the heap left by the previous one. -/

/-- A table entry `{OS: os, Arch: arch, Default: d}`.  The entries of
`Platforms_1_6`, `Platforms_1_7` and `Platforms_1_8` are written in the source
without field names and with three values, `{os, arch, d}`, a literal the Go
compiler does not accept for the four fields of `Platform`; they are read as
OS, Arch, Default with an empty ARM, the only reading the types of the values
allow. -/
def plat (os arch : String) (d : Bool) : Platform := ⟨str os, str arch, d, []⟩

/-- A table entry `{OS: os, Arch: arch, Default: d, ARM: arm}`. -/
def platARM (os arch : String) (d : Bool) (arm : String) : Platform :=
  ⟨str os, str arch, d, str arm⟩

def OsList : List GoString :=
  [str "darwin", str "dragonfly", str "linux", str "android", str "solaris",
   str "freebsd", str "nacl", str "netbsd", str "openbsd", str "plan9", str "windows"]

def ArchList : List GoString :=
  [str "386", str "amd64", str "amd64p32", str "arm", str "arm64", str "mips64",
   str "mips64le", str "ppc64", str "ppc64le"]

def init_1_0 : Heap × Slice :=
  sliceLit [] [
    plat "darwin" "386" true,
    plat "darwin" "amd64" true,
    plat "linux" "386" true,
    plat "linux" "amd64" true,
    plat "linux" "arm" true,
    plat "freebsd" "386" true,
    plat "freebsd" "amd64" true,
    plat "openbsd" "386" true,
    plat "openbsd" "amd64" true,
    plat "windows" "386" true,
    plat "windows" "amd64" true]

def init_1_1 : Heap × Slice :=
  goAppend init_1_0.1 init_1_0.2 [
    plat "freebsd" "arm" true,
    platARM "linux" "arm" false "5",
    platARM "linux" "arm" false "6",
    platARM "linux" "arm" false "7",
    plat "netbsd" "386" true,
    plat "netbsd" "amd64" true,
    plat "netbsd" "arm" true,
    plat "plan9" "386" false]

def init_1_3 : Heap × Slice :=
  goAppend init_1_1.1 init_1_1.2 [
    plat "dragonfly" "386" false,
    plat "dragonfly" "amd64" false,
    plat "nacl" "amd64" false,
    plat "nacl" "amd64p32" false,
    plat "nacl" "arm" false,
    plat "solaris" "amd64" false]

def init_1_4 : Heap × Slice :=
  goAppend init_1_3.1 init_1_3.2 [
    plat "android" "arm" false,
    plat "plan9" "amd64" false]

def init_1_5 : Heap × Slice :=
  goAppend init_1_4.1 init_1_4.2 [
    plat "darwin" "arm" false,
    plat "darwin" "arm64" false,
    plat "linux" "arm64" false,
    plat "linux" "ppc64" false,
    plat "linux" "ppc64le" false]

def init_1_6 : Heap × Slice :=
  goAppend init_1_5.1 init_1_5.2 [
    plat "android" "386" false,
    plat "linux" "mips64" false,
    plat "linux" "mips64le" false]

/-- The heap is the one left by the initialisation of `Platforms_1_6`; the
slice appended to is `Platforms_1_5`. -/
def init_1_7 : Heap × Slice :=
  goAppend init_1_6.1 init_1_5.2 [
    plat "linux" "s390x" true,
    plat "plan9" "arm" false,
    plat "android" "386" false,
    plat "linux" "mips64" true,
    plat "linux" "mips64le" true]

def init_1_8 : Heap × Slice :=
  goAppend init_1_7.1 init_1_7.2 [
    plat "linux" "mips" true,
    plat "linux" "mipsle" true]

def Platforms_1_0 : Slice := init_1_0.2
def Platforms_1_1 : Slice := init_1_1.2
def Platforms_1_3 : Slice := init_1_3.2
def Platforms_1_4 : Slice := init_1_4.2
def Platforms_1_5 : Slice := init_1_5.2
def Platforms_1_6 : Slice := init_1_6.2
def Platforms_1_7 : Slice := init_1_7.2
def Platforms_1_8 : Slice := init_1_8.2
def Platforms_1_9 : Slice := Platforms_1_8
def Platforms_1_10 : Slice := Platforms_1_9
def PlatformsLatest : Slice := Platforms_1_10

/-- The heap once every package-level variable is initialised; it is never
written afterwards. -/
def heap : Heap := init_1_8.1

/-- The elements of a slice as the running program sees them. -/
def elems (s : Slice) : List Platform := heap.load s

/-! ## The imported packages `strings` and `strconv`

Only the functions the program reaches are embedded. -/

namespace strings

/-- Go `strings.Split(s, sep)` for a one-byte separator: the pieces between
the separators; a string without a separator (also the empty one) is one piece. -/
def Split (sep : Nat) : GoString → List GoString
  | [] => [[]]
  | c :: cs =>
    if c = sep then [] :: Split sep cs
    else
      match Split sep cs with
      | [] => [[c]]
      | g :: gs => (c :: g) :: gs

/-- Go `strings.Join(parts, sep)`. -/
def Join (sep : GoString) : List GoString → GoString
  | [] => []
  | [a] => a
  | a :: b :: rest => a ++ sep ++ Join sep (b :: rest)

end strings

namespace strconv

/-- The byte is an ASCII digit. -/
def isDigit (b : Nat) : Bool := decide (48 ≤ b) && decide (b ≤ 57)

/-- The number a run of decimal digits spells, continuing from `a`. -/
def decValFrom (ds : GoString) (a : Nat) : Nat :=
  match ds with
  | [] => a
  | d :: ds => decValFrom ds (10 * a + (d - 48))

/-- The number a run of decimal digits spells. -/
def decVal (ds : GoString) : Nat := decValFrom ds 0

/-- The digits of `ParseInt` once the sign is taken off: at least one byte,
all decimal digits; the magnitude has to fit `int64`. -/
def parseMagnitude (neg : Bool) (ds : GoString) : Option Int :=
  if ds.isEmpty || !ds.all isDigit then none
  else if neg then
    (if decVal ds ≤ 2 ^ 63 then some (-(decVal ds : Int)) else none)
  else
    (if decVal ds < 2 ^ 63 then some (decVal ds : Int) else none)

/-- Go `strconv.ParseInt(s, 10, 64)`; `none` is a non-nil error (a syntax
error or a value out of the `int64` range). -/
def ParseInt : GoString → Option Int
  | [] => none
  | c :: t =>
    if c = 43 then parseMagnitude false t
    else if c = 45 then parseMagnitude true t
    else parseMagnitude false (c :: t)

/-- The value `ParseInt` returns for the digits once the sign is taken off,
also next to an error: 0 for a syntax error, the nearest `int64` bound for a
value out of range. -/
def parseMagnitudeValue (neg : Bool) (ds : GoString) : Int :=
  if ds.isEmpty || !ds.all isDigit then 0
  else if neg then
    (if decVal ds ≤ 2 ^ 63 then -(decVal ds : Int) else -(2 ^ 63))
  else
    (if decVal ds < 2 ^ 63 then (decVal ds : Int) else 2 ^ 63 - 1)

/-- The first result of Go `strconv.ParseInt(s, 10, 64)`, which callers that
ignore the error go on to use. -/
def ParseIntValue : GoString → Int
  | [] => 0
  | c :: t =>
    if c = 43 then parseMagnitudeValue false t
    else if c = 45 then parseMagnitudeValue true t
    else parseMagnitudeValue false (c :: t)

/-- The decimal digits of `n` in front of `acc`, most significant first. -/
def formatNatAux : Nat → Nat → GoString → GoString
  | 0, _, acc => acc
  | fuel + 1, n, acc =>
    if n / 10 = 0 then (48 + n % 10) :: acc
    else formatNatAux fuel (n / 10) ((48 + n % 10) :: acc)

/-- The decimal spelling of a natural number. -/
def formatNat (n : Nat) : GoString := formatNatAux (n + 1) n []

/-- Go `strconv.FormatInt(n, 10)`. -/
def FormatInt (n : Int) : GoString :=
  if n < 0 then 45 :: formatNat n.natAbs else formatNat n.toNat

end strconv

/-! ## The imported package `github.com/hashicorp/go-version`

The package is a dependency and not part of `platform.go`.  Its behaviour is
embedded function by function: versions are dotted decimal segments held as
`int64`, padded with zeros to three, with an optional pre-release and
metadata suffix; constraints are comma-separated comparisons. -/

namespace version

/-- The error values of the package. -/
inductive Error where
  | malformedVersion (v : GoString)
  | parsingVersion (segment : GoString)
  | malformedConstraint (v : GoString)
deriving DecidableEq, Repr

/-- Modelled from the spec: the type `Version` of the imported package
go-version, which is not under src/ ("a version value supporting
major/minor/patch comparison"): the numeric segments, the pre-release and
metadata suffixes, the number of segments written (`si`) and the text parsed. -/
structure Version where
  metadata : GoString
  pre : GoString
  segments : List Int
  si : Nat
  original : GoString
deriving DecidableEq, Repr

/-- The byte is an ASCII letter. -/
def isAlpha (b : Nat) : Bool :=
  (decide (65 ≤ b) && decide (b ≤ 90)) || (decide (97 ≤ b) && decide (b ≤ 122))

/-- The class `[A-Za-z\-~]` of the version pattern. -/
def isPreStart (b : Nat) : Bool := isAlpha b || b == 45 || b == 126

/-- The class `[0-9A-Za-z\-~]` of the version pattern. -/
def isIdent (b : Nat) : Bool := strconv.isDigit b || isPreStart b

/-- The text matches `[0-9A-Za-z\-~]+(\.[0-9A-Za-z\-~]+)*`. -/
def validGroups (s : GoString) : Bool :=
  (strings.Split 46 s).all (fun g => !g.isEmpty && g.all isIdent)

/-- The pre-release group of the version pattern on the text `p` between the
segments and the metadata: `-` and dotted identifiers (the leading `-` is not
part of the group), or dotted identifiers starting with a letter, `-` or `~`. -/
def matchPre (p : GoString) : Option GoString :=
  match p with
  | [] => some []
  | c :: q =>
    if c == 45 && validGroups q then some q
    else if isPreStart c && validGroups p then some p
    else none

/-- The metadata group of the version pattern on the text from the first `+`
on: `+` and dotted identifiers. -/
def matchMeta (m : GoString) : Option GoString :=
  match m with
  | [] => some []
  | _ :: q => if validGroups q then some q else none

/-- Modelled from the spec: the anchored version pattern of the imported
package go-version, which is not under src/:
`^v?([0-9]+(\.[0-9]+)*?)(-pre|-?pre)?(\+metadata)??$`.  A match gives the
segments text, the pre-release and the metadata. -/
def matchVersion (v : GoString) : Option (GoString × GoString × GoString) :=
  let s := match v with
    | 118 :: t => t
    | _ => v
  let body := s.takeWhile (fun b => strconv.isDigit b || b == 46)
  let rest := s.dropWhile (fun b => strconv.isDigit b || b == 46)
  if (strings.Split 46 body).all (fun g => !g.isEmpty) then
    match matchPre (rest.takeWhile (fun b => b != 43)),
          matchMeta (rest.dropWhile (fun b => b != 43)) with
    | some pre, some md => some (body, pre, md)
    | _, _ => none
  else none

/-- The loop of `NewVersion` that parses each segment with `ParseInt`. -/
def parseSegments : List GoString → Except Error (List Int)
  | [] => .ok []
  | g :: gs =>
    match strconv.ParseInt g with
    | none => .error (.parsingVersion g)
    | some n =>
      match parseSegments gs with
      | .error e => .error e
      | .ok ns => .ok (n :: ns)

/-- Modelled from the spec: `version.NewVersion` of the imported package
go-version, which is not under src/ ("parse the remainder as a version
value"): match the pattern, read the segments as `int64`, pad them with zeros
to three. -/
def NewVersion (v : GoString) : Except Error Version :=
  match matchVersion v with
  | none => .error (.malformedVersion v)
  | some (body, pre, md) =>
    match parseSegments (strings.Split 46 body) with
    | .error e => .error e
    | .ok segs =>
      .ok { metadata := md, pre := pre,
            segments := segs ++ List.replicate (3 - segs.length) 0,
            si := segs.length, original := v }

/-- Go `(*Version).String`: the segments joined by dots, then `-pre` and
`+metadata` when present. -/
def Version.String (v : Version) : GoString :=
  strings.Join [46] (v.segments.map strconv.FormatInt)
    ++ (if v.pre ≠ [] then 45 :: v.pre else [])
    ++ (if v.metadata ≠ [] then 43 :: v.metadata else [])

/-- Go `allZero`. -/
def allZero (segs : List Int) : Bool := segs.all (fun s => s == 0)

/-- The segment loop of `Compare`: the first differing segment decides; when
one side runs out, the other is greater unless all it has left is zeros. -/
def compareSegments : List Int → List Int → Int
  | [], [] => 0
  | [], b :: bs => if !allZero (b :: bs) then -1 else 0
  | a :: as, [] => if !allZero (a :: as) then 1 else 0
  | a :: as, b :: bs =>
    if a = b then compareSegments as bs
    else if a < b then -1
    else 1

/-- Go byte-wise string comparison `a > b`. -/
def strGt : GoString → GoString → Bool
  | [], _ => false
  | _ :: _, [] => true
  | a :: as, b :: bs => if a = b then strGt as bs else decide (a > b)

/-- Go `comparePart`; `selfInt` and `otherInt` are what `ParseInt` returned,
whether or not it also returned an error. -/
def comparePart (preSelf preOther : GoString) : Int :=
  if preSelf = preOther then 0
  else
    let selfNumeric := (strconv.ParseInt preSelf).isSome
    let selfInt := strconv.ParseIntValue preSelf
    let otherNumeric := (strconv.ParseInt preOther).isSome
    let otherInt := strconv.ParseIntValue preOther
    if preSelf = [] then (if otherNumeric then -1 else 1)
    else if preOther = [] then (if selfNumeric then 1 else -1)
    else if selfNumeric && !otherNumeric then -1
    else if !selfNumeric && otherNumeric then 1
    else if !selfNumeric && !otherNumeric && strGt preSelf preOther then 1
    else if selfInt > otherInt then 1
    else -1

/-- The loop of `comparePrereleases` over the dot-separated parts; a side
that has run out of parts contributes the empty part. -/
def compareParts : List GoString → List GoString → Int
  | [], [] => 0
  | [], b :: bs =>
    if comparePart [] b ≠ 0 then comparePart [] b else compareParts [] bs
  | a :: as, [] =>
    if comparePart a [] ≠ 0 then comparePart a [] else compareParts as []
  | a :: as, b :: bs =>
    if comparePart a b ≠ 0 then comparePart a b else compareParts as bs

/-- Go `comparePrereleases`. -/
def comparePrereleases (v other : GoString) : Int :=
  if v = other then 0
  else compareParts (strings.Split 46 v) (strings.Split 46 other)

/-- Modelled from the spec: `(*Version).Compare` of the imported package
go-version, which is not under src/ ("major/minor/patch comparison"): 0 for
equal texts; for equal segments a version without pre-release is the greater;
otherwise the segments decide, compared as numbers from the left. -/
def Version.Compare (v other : Version) : Int :=
  if v.String = other.String then 0
  else if v.segments = other.segments then
    if v.pre = [] ∧ other.pre = [] then 0
    else if v.pre = [] then 1
    else if other.pre = [] then -1
    else comparePrereleases v.pre other.pre
  else compareSegments v.segments other.segments

/-- The comparison operators a constraint can carry. -/
inductive Operator where
  | equal | notEqual | greaterThan | lessThan | greaterThanEqual
  | lessThanEqual | pessimistic
deriving DecidableEq, Repr

/-- A single constraint: an operator and the version it compares against. -/
structure Constraint where
  f : Operator
  check : Version
  original : GoString
deriving DecidableEq, Repr

/-- Go `constraintOperators`: the operator a piece of text names. -/
def constraintOperators (op : GoString) : Option Operator :=
  if op = [] then some .equal
  else if op = str "=" then some .equal
  else if op = str "!=" then some .notEqual
  else if op = str ">" then some .greaterThan
  else if op = str "<" then some .lessThan
  else if op = str ">=" then some .greaterThanEqual
  else if op = str "<=" then some .lessThanEqual
  else if op = str "~>" then some .pessimistic
  else none

/-- The class `\s` of the constraint pattern. -/
def isSpace (b : Nat) : Bool := b == 9 || b == 10 || b == 12 || b == 13 || b == 32

/-- The bytes the operators are written with. -/
def isOpByte (b : Nat) : Bool := b == 61 || b == 33 || b == 62 || b == 60 || b == 126

/-- Go `parseSingle`: match `^\s*(operator)\s*(version)\s*$`, then parse the
version text with `NewVersion`. -/
def parseSingle (v : GoString) : Except Error Constraint :=
  let s := v.dropWhile isSpace
  let op := s.takeWhile isOpByte
  let vtext := (((s.dropWhile isOpByte).dropWhile isSpace).reverse.dropWhile isSpace).reverse
  match constraintOperators op, matchVersion vtext with
  | some f, some _ =>
    match NewVersion vtext with
    | .error e => .error e
    | .ok check => .ok { f := f, check := check, original := v }
  | _, _ => .error (.malformedConstraint v)

/-- The loop of `NewConstraint` over the comma-separated pieces. -/
def parseAll : List GoString → Except Error (List Constraint)
  | [] => .ok []
  | single :: rest =>
    match parseSingle single with
    | .error e => .error e
    | .ok c =>
      match parseAll rest with
      | .error e => .error e
      | .ok cs => .ok (c :: cs)

/-- Modelled from the spec: `version.NewConstraint` of the imported package
go-version, which is not under src/ ("a constraint string combining a lower
bound (inclusive) and optionally an upper bound (exclusive)"): split at the
commas and parse each piece. -/
def NewConstraint (v : GoString) : Except Error (List Constraint) :=
  parseAll (strings.Split 44 v)

/-- Go `prereleaseCheck`. -/
def prereleaseCheck (v c : Version) : Bool :=
  if c.pre ≠ [] ∧ v.pre ≠ [] then decide (c.segments = v.segments)
  else if c.pre = [] ∧ v.pre ≠ [] then false
  else true

/-- Go `constraintPessimistic`. -/
def constraintPessimistic (v c : Version) : Bool :=
  if !prereleaseCheck v c || (c.pre ≠ [] && v.pre = []) then false
  else if v.Compare c < 0 then false
  else if c.segments.length > v.segments.length then false
  else if (List.range (c.si - 1)).any (fun i => v.segments.getD i 0 != c.segments.getD i 0) then false
  else if c.segments.getD (c.segments.length - 1) 0 > v.segments.getD (c.segments.length - 1) 0 then false
  else true

/-- Modelled from the spec: `(*Constraint).Check` of the imported package
go-version, which is not under src/ ("range-constraint evaluation"): apply
the operator of the constraint to the version and the bound. -/
def Constraint.Check (c : Constraint) (v : Version) : Bool :=
  match c.f with
  | .equal => v.Compare c.check == 0
  | .notEqual => v.Compare c.check != 0
  | .greaterThan => prereleaseCheck v c.check && v.Compare c.check == 1
  | .lessThan => prereleaseCheck v c.check && v.Compare c.check == -1
  | .greaterThanEqual => prereleaseCheck v c.check && decide (v.Compare c.check ≥ 0)
  | .lessThanEqual => prereleaseCheck v c.check && decide (v.Compare c.check ≤ 0)
  | .pessimistic => constraintPessimistic v c.check

/-- Go `Constraints.Check`: every constraint of the list holds. -/
def Check (cs : List Constraint) (v : Version) : Bool :=
  cs.all (fun c => c.Check v)

end version

/-! ## SupportedPlatforms -/

/-- How a call ends: with the slice returned, or in `panic(err)`. -/
inductive Return where
  | value (s : Slice)
  | panic (err : version.Error)
deriving DecidableEq, Repr

/-- What a call of `SupportedPlatforms` does: the diagnostics it logged (the
two arguments of `log.Printf("Unable to parse current go version: %s\n%s")`)
and how it ended. -/
structure Outcome where
  logged : List (GoString × version.Error)
  result : Return
deriving DecidableEq, Repr

/-- The table of constraint strings and snapshots local to
`SupportedPlatforms`. -/
def platforms : List (GoString × Slice) :=
  [(str "<= 1.0", Platforms_1_0),
   (str ">= 1.1, < 1.3", Platforms_1_1),
   (str ">= 1.3, < 1.4", Platforms_1_3),
   (str ">= 1.4, < 1.5", Platforms_1_4),
   (str ">= 1.5, < 1.6", Platforms_1_5),
   (str ">= 1.6, < 1.7", Platforms_1_6),
   (str ">= 1.7, < 1.8", Platforms_1_7),
   (str ">= 1.8, < 1.9", Platforms_1_8),
   (str ">= 1.9, < 1.10", Platforms_1_9),
   (str ">=1.10, < 1.11", Platforms_1_10)]

/-- The loop `for _, p := range platforms` of `SupportedPlatforms`: parse the
constraint of the row (panic when that fails), return the snapshot of the
first row whose constraint holds; after the loop, return `Platforms_1_9`. -/
def scan (current : version.Version) : List (GoString × Slice) → Return
  | [] => .value Platforms_1_9
  | p :: ps =>
    match version.NewConstraint p.1 with
    | .error err => .panic err
    | .ok constraints =>
      if version.Check constraints current then .value p.2
      else scan current ps

/-- Go `SupportedPlatforms(v)`. -/
def SupportedPlatforms (v : GoString) : Outcome :=
  if !strings.HasPrefix v (str "go") then ⟨[], .value PlatformsLatest⟩
  else
    match version.NewVersion (v.drop 2) with
    | .error err => ⟨[(v.drop 2, err)], .value PlatformsLatest⟩
    | .ok current => ⟨[], scan current platforms⟩

open strconv strings version

/-! ## Predicates and tables the statements use -/

/-- A version is plain when it has neither pre-release nor metadata and its
segments are not negative (as for every version `NewVersion` builds from
digits). -/
def Plain (v : Version) : Prop :=
  v.pre = [] ∧ v.metadata = [] ∧ ∀ x ∈ v.segments, 0 ≤ x

/-- The text is one or more groups of one or more decimal digits. -/
def DigitGroups (dss : List GoString) : Prop :=
  dss ≠ [] ∧ ∀ ds ∈ dss, ds ≠ [] ∧ ds.all isDigit = true

instance (dss : List GoString) : Decidable (DigitGroups dss) := by
  unfold DigitGroups; infer_instance

/-- The version `NewVersion` builds from dotted decimal text. -/
def plainVersion (dss : List GoString) : Version :=
  { metadata := [], pre := [],
    segments := (dss.map fun ds => (decVal ds : Int)) ++ List.replicate (3 - dss.length) 0,
    si := dss.length, original := Join [46] dss }

/-- The version a bound `1.minor` of the table parses to. -/
def bound (minor : Int) (text : String) : Version :=
  { metadata := [], pre := [], segments := [1, minor, 0], si := 2, original := str text }

/-- The row a plain version `a.b.c...` selects: the first row whose range
holds `a.b.c...`, else the fallback. -/
def resolve (a b : Int) (zeroTail : Bool) : Slice :=
  if a < 1 ∨ (a = 1 ∧ b = 0 ∧ zeroTail = true) then Platforms_1_0
  else if a = 1 ∧ 1 ≤ b ∧ b < 3 then Platforms_1_1
  else if a = 1 ∧ 3 ≤ b ∧ b < 4 then Platforms_1_3
  else if a = 1 ∧ 4 ≤ b ∧ b < 5 then Platforms_1_4
  else if a = 1 ∧ 5 ≤ b ∧ b < 6 then Platforms_1_5
  else if a = 1 ∧ 6 ≤ b ∧ b < 7 then Platforms_1_6
  else if a = 1 ∧ 7 ≤ b ∧ b < 8 then Platforms_1_7
  else if a = 1 ∧ 8 ≤ b ∧ b < 9 then Platforms_1_8
  else if a = 1 ∧ 9 ≤ b ∧ b < 10 then Platforms_1_9
  else if a = 1 ∧ 10 ≤ b ∧ b < 11 then Platforms_1_10
  else Platforms_1_9

/-- Segment `i` of a version; a segment that is not written counts as zero. -/
def segAt (v : List Nat) (i : Nat) : Nat := v.getD i 0

/-- The order of versions the spec speaks of, segments compared as numbers
from the left: `a` is below `b` when at the first position where they differ
the segment of `a` is the smaller one. -/
def verLT (a b : List Nat) : Prop :=
  ∃ i, i < max a.length b.length ∧ (∀ j, j < i → segAt a j = segAt b j) ∧ segAt a i < segAt b i

/-- The version `a` is at most `b`: `b` is not below `a`. -/
def verLE (a b : List Nat) : Prop := ¬ verLT b a

instance (a b : List Nat) : Decidable (verLT a b) := by
  unfold verLT; infer_instance

instance (a b : List Nat) : Decidable (verLE a b) := by
  unfold verLE; infer_instance

/-- The rows of the range table as the spec lists them: the row of snapshot
`Platforms_1_k` holds the versions from `1.lo` (included) to `1.hi`
(excluded). -/
def rangeRows : List (Nat × Nat × Slice) :=
  [(1, 3, Platforms_1_1), (3, 4, Platforms_1_3), (4, 5, Platforms_1_4),
   (5, 6, Platforms_1_5), (6, 7, Platforms_1_6), (7, 8, Platforms_1_7),
   (8, 9, Platforms_1_8), (9, 10, Platforms_1_9), (10, 11, Platforms_1_10)]

/-- The slices `SupportedPlatforms` can return: the snapshots of the ten rows
(the fallbacks `PlatformsLatest` and `Platforms_1_9` are among them). -/
def snapshots : List Slice :=
  [Platforms_1_0, Platforms_1_1, Platforms_1_3, Platforms_1_4, Platforms_1_5,
   Platforms_1_6, Platforms_1_7, Platforms_1_8, Platforms_1_9, Platforms_1_10]

/-- The arch string has the shape the spec names: "armv" and then one or more
decimal digits. -/
def isArmVariant (arch : GoString) : Bool :=
  HasPrefix arch (str "armv") && !(arch.drop 4).isEmpty && (arch.drop 4).all isDigit

/-- The identity of a platform: OS, Arch and ARM revision (Default is not
part of it). -/
def Platform.identity (p : Platform) : GoString × GoString × GoString :=
  (p.OS, p.Arch, p.ARM)

/-- Every platform identity of the slice `a` occurs in the slice `b`. -/
def covers (a b : List Platform) : Prop :=
  ∀ p ∈ a, ∃ q ∈ b, q.identity = p.identity

instance (a b : List Platform) : Decidable (covers a b) := by
  unfold covers; infer_instance

/-- The steps of the chain of snapshots in the order of the releases, without
the step from `Platforms_1_6` to `Platforms_1_7`. -/
def chainSteps : List (Slice × Slice) :=
  [(Platforms_1_0, Platforms_1_1), (Platforms_1_1, Platforms_1_3),
   (Platforms_1_3, Platforms_1_4), (Platforms_1_4, Platforms_1_5),
   (Platforms_1_5, Platforms_1_6), (Platforms_1_7, Platforms_1_8),
   (Platforms_1_8, Platforms_1_9), (Platforms_1_9, Platforms_1_10)]

/-- The steps of the chain whose later snapshot is declared as `append` on
the snapshot right before it. -/
def appendSteps : List (Slice × Slice) :=
  [(Platforms_1_0, Platforms_1_1), (Platforms_1_1, Platforms_1_3),
   (Platforms_1_3, Platforms_1_4), (Platforms_1_4, Platforms_1_5),
   (Platforms_1_5, Platforms_1_6), (Platforms_1_7, Platforms_1_8)]

/-- The value of `Platforms_1_6` right after its own initialisation, before
`Platforms_1_7` is initialised. -/
def declared_1_6 : List Platform := Heap.load init_1_6.1 Platforms_1_6

/-- The three entries the declaration of `Platforms_1_6` appends. -/
def added_1_6 : List Platform :=
  [plat "android" "386" false, plat "linux" "mips64" false, plat "linux" "mips64le" false]

/-- The snapshots from `Platforms_1_7` on. -/
def laterSnapshots : List Slice :=
  [Platforms_1_7, Platforms_1_8, Platforms_1_9, Platforms_1_10, PlatformsLatest]

/-- The snapshots up to `Platforms_1_5`. -/
def earlySnapshots : List Slice :=
  [Platforms_1_0, Platforms_1_1, Platforms_1_3, Platforms_1_4, Platforms_1_5]

/-- The constraint of the row parses and holds for the version: the test the
loop of `SupportedPlatforms` makes on a row. -/
def rowMatches (v : Version) (p : GoString × Slice) : Bool :=
  match NewConstraint p.1 with
  | .ok cs => Check cs v
  | .error _ => false

/-- The version without its metadata. -/
def stripMetadata (v : Version) : Version := { v with metadata := [] }

/-- The row of the table a version `a.b.c...` without pre-release satisfies,
if any (`zeroTail`: every segment after `b` is zero). -/
def selected (a b : Int) (zeroTail : Bool) : Option (GoString × Slice) :=
  if a < 1 ∨ (a = 1 ∧ b = 0 ∧ zeroTail = true) then some (str "<= 1.0", Platforms_1_0)
  else if a = 1 ∧ 1 ≤ b ∧ b < 3 then some (str ">= 1.1, < 1.3", Platforms_1_1)
  else if a = 1 ∧ 3 ≤ b ∧ b < 4 then some (str ">= 1.3, < 1.4", Platforms_1_3)
  else if a = 1 ∧ 4 ≤ b ∧ b < 5 then some (str ">= 1.4, < 1.5", Platforms_1_4)
  else if a = 1 ∧ 5 ≤ b ∧ b < 6 then some (str ">= 1.5, < 1.6", Platforms_1_5)
  else if a = 1 ∧ 6 ≤ b ∧ b < 7 then some (str ">= 1.6, < 1.7", Platforms_1_6)
  else if a = 1 ∧ 7 ≤ b ∧ b < 8 then some (str ">= 1.7, < 1.8", Platforms_1_7)
  else if a = 1 ∧ 8 ≤ b ∧ b < 9 then some (str ">= 1.8, < 1.9", Platforms_1_8)
  else if a = 1 ∧ 9 ≤ b ∧ b < 10 then some (str ">= 1.9, < 1.10", Platforms_1_9)
  else if a = 1 ∧ 10 ≤ b ∧ b < 11 then some (str ">=1.10, < 1.11", Platforms_1_10)
  else none

/-! ## Theorems -/

theorem decValFrom_eq (ds : GoString) (a : Nat) :
    decValFrom ds a = a * 10 ^ ds.length + decValFrom ds 0 := by
  induction ds generalizing a with
  | nil => simp only [decValFrom, List.length_nil, pow_zero, mul_one, add_zero]
  | cons d ds ih =>
    simp only [decValFrom, List.length_cons]
    rw [ih (10 * a + (d - 48)), ih (10 * 0 + (d - 48))]
    ring

theorem decVal_cons (d : Nat) (ds : GoString) :
    decVal (d :: ds) = (d - 48) * 10 ^ ds.length + decVal ds := by
  unfold decVal
  simp only [decValFrom]
  rw [decValFrom_eq]
  simp

theorem formatNatAux_spec : ∀ (fuel n : Nat) (acc : GoString), n < fuel →
    decVal (formatNatAux fuel n acc) = n * 10 ^ acc.length + decVal acc
    ∧ ((formatNatAux fuel n acc).all isDigit = acc.all isDigit)
    ∧ formatNatAux fuel n acc ≠ [] := by
  intro fuel
  induction fuel with
  | zero => intro n acc h; omega
  | succ fuel ih =>
    intro n acc h
    unfold formatNatAux
    by_cases h0 : n / 10 = 0
    · have hn : n < 10 := by omega
      simp only [h0, if_true]
      refine ⟨?_, ?_, by simp⟩
      · rw [decVal_cons]
        have : n % 10 = n := Nat.mod_eq_of_lt hn
        rw [this]; simp
      · simp only [List.all_cons]
        have : isDigit (48 + n % 10) = true := by
          unfold isDigit; simp; omega
        rw [this]; simp
    · simp only [h0, if_false]
      have hlt : n / 10 < fuel := by omega
      obtain ⟨h1, h2, h3⟩ := ih (n / 10) ((48 + n % 10) :: acc) hlt
      refine ⟨?_, ?_, h3⟩
      · rw [h1, decVal_cons]
        simp only [List.length_cons, Nat.add_sub_cancel_left]
        have hn := Nat.div_add_mod n 10
        generalize n / 10 = q at hn ⊢
        generalize n % 10 = r at hn ⊢
        rw [← hn, pow_succ]
        ring
      · rw [h2]
        simp only [List.all_cons]
        have : isDigit (48 + n % 10) = true := by
          unfold isDigit; simp; omega
        rw [this]; simp

theorem decVal_formatNat (n : Nat) : decVal (formatNat n) = n := by
  have := (formatNatAux_spec (n + 1) n [] (by omega)).1
  simpa [formatNat, decVal, decValFrom] using this

theorem formatNat_digits (n : Nat) : (formatNat n).all isDigit = true := by
  have := (formatNatAux_spec (n + 1) n [] (by omega)).2.1
  simpa [formatNat] using this

theorem formatNat_ne_nil (n : Nat) : formatNat n ≠ [] :=
  (formatNatAux_spec (n + 1) n [] (by omega)).2.2

/-! ### Splitting and joining -/

theorem split_of_not_mem (sep : Nat) (g : GoString) (h : sep ∉ g) : Split sep g = [g] := by
  induction g with
  | nil => simp [Split]
  | cons c cs ih =>
    have hc : c ≠ sep := fun e => h (by simp [e])
    have hcs : sep ∉ cs := fun e => h (by simp [e])
    simp [Split, hc, ih hcs]

theorem split_append_sep (sep : Nat) (g rest : GoString) (h : sep ∉ g) :
    Split sep (g ++ sep :: rest) = g :: Split sep rest := by
  induction g with
  | nil => simp [Split]
  | cons c cs ih =>
    have hc : c ≠ sep := fun e => h (by simp [e])
    have hcs : sep ∉ cs := fun e => h (by simp [e])
    simp [Split, hc, ih hcs]

theorem split_join (sep : Nat) (gs : List GoString) (hne : gs ≠ [])
    (h : ∀ g ∈ gs, sep ∉ g) : Split sep (Join [sep] gs) = gs := by
  induction gs with
  | nil => exact absurd rfl hne
  | cons a rest ih =>
    cases rest with
    | nil => simpa [Join] using split_of_not_mem sep a (h a (by simp))
    | cons b rest =>
      have ha : sep ∉ a := h a (by simp)
      have hr : ∀ g ∈ b :: rest, sep ∉ g := fun g hg => h g (by simp [hg])
      have := ih (by simp) hr
      simp only [Join, List.append_assoc, List.singleton_append]
      rw [split_append_sep sep a _ ha, this]

theorem dot_not_mem_of_digits (ds : GoString) (h : ds.all isDigit = true) : 46 ∉ ds := by
  intro hm
  have := List.all_eq_true.mp h 46 hm
  simp [isDigit] at this

theorem join_eq_nil (gs : List GoString) (hne : gs ≠ []) (h : ∀ g ∈ gs, g ≠ []) :
    Join [46] gs ≠ [] := by
  cases gs with
  | nil => exact absurd rfl hne
  | cons a rest =>
    cases rest with
    | nil => simpa [Join] using h a (by simp)
    | cons b rest => simp [Join]

theorem join_digits_inj (gs hs : List GoString)
    (hg : ∀ g ∈ gs, g ≠ [] ∧ g.all isDigit = true)
    (hh : ∀ g ∈ hs, g ≠ [] ∧ g.all isDigit = true)
    (e : Join [46] gs = Join [46] hs) : gs = hs := by
  by_cases h1 : gs = []
  · by_cases h2 : hs = []
    · rw [h1, h2]
    · exfalso
      apply join_eq_nil hs h2 (fun g m => (hh g m).1)
      rw [← e, h1]; rfl
  · by_cases h2 : hs = []
    · exfalso
      apply join_eq_nil gs h1 (fun g m => (hg g m).1)
      rw [e, h2]; rfl
    · have a := split_join 46 gs h1 (fun g m => dot_not_mem_of_digits g (hg g m).2)
      have b := split_join 46 hs h2 (fun g m => dot_not_mem_of_digits g (hh g m).2)
      rw [← a, ← b, e]

theorem formatInt_of_nonneg (x : Int) (h : 0 ≤ x) : FormatInt x = formatNat x.toNat := by
  unfold FormatInt
  simp [not_lt.mpr h]

theorem map_formatInt_inj (a b : List Int) (ha : ∀ x ∈ a, 0 ≤ x) (hb : ∀ x ∈ b, 0 ≤ x)
    (e : a.map FormatInt = b.map FormatInt) : a = b := by
  induction a generalizing b with
  | nil => cases b with
    | nil => rfl
    | cons y ys => simp at e
  | cons x xs ih =>
    cases b with
    | nil => simp at e
    | cons y ys =>
      simp only [List.map_cons, List.cons.injEq] at e
      have hx : 0 ≤ x := ha x (by simp)
      have hy : 0 ≤ y := hb y (by simp)
      have e1 := e.1
      rw [formatInt_of_nonneg x hx, formatInt_of_nonneg y hy] at e1
      have e2 := congrArg decVal e1
      rw [decVal_formatNat, decVal_formatNat] at e2
      have hxy : x = y := by omega
      rw [hxy, ih ys (fun z m => ha z (by simp [m])) (fun z m => hb z (by simp [m])) e.2]

/-! ### Comparing versions without suffixes -/

theorem compareSegments_self (s : List Int) : compareSegments s s = 0 := by
  induction s with
  | nil => simp [compareSegments]
  | cons a as ih => simp [compareSegments, ih]

theorem formatInt_digits (x : Int) (h : 0 ≤ x) :
    FormatInt x ≠ [] ∧ (FormatInt x).all isDigit = true := by
  rw [formatInt_of_nonneg x h]
  exact ⟨formatNat_ne_nil _, formatNat_digits _⟩

theorem string_plain_inj (v c : Version) (hv : Plain v) (hc : Plain c)
    (e : v.String = c.String) : v.segments = c.segments := by
  obtain ⟨hv1, hv2, hv3⟩ := hv
  obtain ⟨hc1, hc2, hc3⟩ := hc
  simp only [Version.String, hv1, hv2, hc1, hc2, ne_eq, not_true_eq_false, if_false,
    List.append_nil] at e
  apply map_formatInt_inj _ _ hv3 hc3
  apply join_digits_inj _ _ _ _ e
  · intro g hg
    obtain ⟨x, hx, rfl⟩ := List.mem_map.mp hg
    exact formatInt_digits x (hv3 x hx)
  · intro g hg
    obtain ⟨x, hx, rfl⟩ := List.mem_map.mp hg
    exact formatInt_digits x (hc3 x hx)

theorem compare_plain (v c : Version) (hv : Plain v) (hc : Plain c) :
    v.Compare c = compareSegments v.segments c.segments := by
  unfold Version.Compare
  by_cases hs : v.String = c.String
  · rw [if_pos hs, string_plain_inj v c hv hc hs, compareSegments_self]
  · rw [if_neg hs]
    by_cases hseg : v.segments = c.segments
    · rw [if_pos hseg, if_pos ⟨hv.1, hc.1⟩, hseg, compareSegments_self]
    · rw [if_neg hseg]

theorem prereleaseCheck_plain (v c : Version) (hv : Plain v) (hc : Plain c) :
    prereleaseCheck v c = true := by
  simp [prereleaseCheck, hv.1, hc.1]

theorem compareSegments_nil_right (rest : List Int) :
    compareSegments rest [] = if allZero rest then 0 else 1 := by
  cases rest with
  | nil => simp [compareSegments, allZero]
  | cons x xs => cases h : allZero (x :: xs) <;> simp [compareSegments, h]

/-- Comparing `a.b.c...` with `1.j.0`. -/
theorem compareSegments_minor (a b c : Int) (rest : List Int) (j : Int) :
    compareSegments (a :: b :: c :: rest) [1, j, 0] =
      if a = 1 then
        if b = j then
          if c = 0 then (if allZero rest then 0 else 1)
          else if c < 0 then -1 else 1
        else if b < j then -1 else 1
      else if a < 1 then -1 else 1 := by
  simp only [compareSegments, compareSegments_nil_right]

/-! ### Parsing dotted decimal text -/

theorem join_bytes (dss : List GoString) (h : ∀ ds ∈ dss, ds.all isDigit = true) :
    ∀ b ∈ Join [46] dss, (isDigit b || b == 46) = true := by
  induction dss with
  | nil => intro b hb; simp [Join] at hb
  | cons a rest ih =>
    have ha := List.all_eq_true.mp (h a (by simp))
    cases rest with
    | nil =>
      intro b hb
      simp only [Join] at hb
      simp [ha b hb]
    | cons c rest =>
      intro b hb
      simp only [Join, List.append_assoc, List.singleton_append, List.mem_append,
        List.mem_cons] at hb
      rcases hb with hb | hb | hb
      · simp [ha b hb]
      · simp [hb]
      · exact ih (fun ds m => h ds (by simp [m])) b hb

theorem matchVersion_plain (dss : List GoString) (h : DigitGroups dss) :
    matchVersion (Join [46] dss) = some (Join [46] dss, [], []) := by
  have hb := join_bytes dss (fun ds m => (h.2 ds m).2)
  have hsplit := split_join 46 dss h.1 (fun g m => dot_not_mem_of_digits g (h.2 g m).2)
  have hv : (match Join [46] dss with
      | 118 :: t => t
      | _ => Join [46] dss) = Join [46] dss := by
    split
    · rename_i t e
      have := hb 118 (by rw [e]; simp)
      simp [isDigit] at this
    · rfl
  unfold matchVersion
  simp only [hv]
  have htake : List.takeWhile (fun b => isDigit b || b == 46) (Join [46] dss) = Join [46] dss :=
    List.takeWhile_eq_self_iff.mpr hb
  have hdrop : List.dropWhile (fun b => isDigit b || b == 46) (Join [46] dss) = [] :=
    List.dropWhile_eq_nil_iff.mpr hb
  rw [htake, hdrop, hsplit]
  have hall : (dss.all fun g => !g.isEmpty) = true := by
    rw [List.all_eq_true]
    intro g hg
    have := (h.2 g hg).1
    cases g with
    | nil => exact absurd rfl this
    | cons _ _ => rfl
  simp [hall, matchPre, matchMeta]

theorem parseInt_digits (ds : GoString) (h1 : ds ≠ []) (h2 : ds.all isDigit = true)
    (h3 : decVal ds < 2 ^ 63) : ParseInt ds = some (decVal ds : Int) := by
  cases ds with
  | nil => exact absurd rfl h1
  | cons c t =>
    have hc : isDigit c = true := List.all_eq_true.mp h2 c (by simp)
    have h43 : c ≠ 43 := by intro e; simp [e, isDigit] at hc
    have h45 : c ≠ 45 := by intro e; simp [e, isDigit] at hc
    simp only [ParseInt, h43, h45, if_false, parseMagnitude, h2, h3]
    simp

theorem parseSegments_plain (dss : List GoString)
    (h : ∀ ds ∈ dss, ds ≠ [] ∧ ds.all isDigit = true)
    (h64 : ∀ ds ∈ dss, decVal ds < 2 ^ 63) :
    parseSegments dss = .ok (dss.map fun ds => (decVal ds : Int)) := by
  induction dss with
  | nil => rfl
  | cons a rest ih =>
    have := parseInt_digits a (h a (by simp)).1 (h a (by simp)).2 (h64 a (by simp))
    simp only [parseSegments, this, List.map_cons]
    rw [ih (fun ds m => h ds (by simp [m])) (fun ds m => h64 ds (by simp [m]))]

theorem newVersion_plain (dss : List GoString) (h : DigitGroups dss)
    (h64 : ∀ ds ∈ dss, decVal ds < 2 ^ 63) :
    NewVersion (Join [46] dss) = .ok (plainVersion dss) := by
  have hsplit := split_join 46 dss h.1 (fun g m => dot_not_mem_of_digits g (h.2 g m).2)
  unfold NewVersion
  rw [matchVersion_plain dss h]
  simp only [hsplit, parseSegments_plain dss h.2 h64, plainVersion, List.length_map]

theorem plainVersion_plain (dss : List GoString) : Plain (plainVersion dss) := by
  refine ⟨rfl, rfl, ?_⟩
  intro x hx
  simp only [plainVersion, List.mem_append, List.mem_map, List.mem_replicate] at hx
  rcases hx with ⟨ds, _, rfl⟩ | ⟨_, rfl⟩
  · exact Int.ofNat_nonneg _
  · exact le_refl _

/-! ### The constraint table -/

theorem bound_plain (minor : Int) (text : String) (h : 0 ≤ minor) : Plain (bound minor text) := by
  refine ⟨rfl, rfl, ?_⟩
  intro x hx
  simp only [bound, List.mem_cons, List.mem_singleton, List.not_mem_nil, or_false] at hx
  rcases hx with rfl | rfl | rfl <;> omega

theorem newConstraint_row0 : NewConstraint (str "<= 1.0") =
    .ok [⟨.lessThanEqual, bound 0 "1.0", str "<= 1.0"⟩] := by rfl

theorem newConstraint_row1 : NewConstraint (str ">= 1.1, < 1.3") =
    .ok [⟨.greaterThanEqual, bound 1 "1.1", str ">= 1.1"⟩, ⟨.lessThan, bound 3 "1.3", str " < 1.3"⟩] := by
  rfl

theorem newConstraint_row2 : NewConstraint (str ">= 1.3, < 1.4") =
    .ok [⟨.greaterThanEqual, bound 3 "1.3", str ">= 1.3"⟩, ⟨.lessThan, bound 4 "1.4", str " < 1.4"⟩] := by
  rfl

theorem newConstraint_row3 : NewConstraint (str ">= 1.4, < 1.5") =
    .ok [⟨.greaterThanEqual, bound 4 "1.4", str ">= 1.4"⟩, ⟨.lessThan, bound 5 "1.5", str " < 1.5"⟩] := by
  rfl

theorem newConstraint_row4 : NewConstraint (str ">= 1.5, < 1.6") =
    .ok [⟨.greaterThanEqual, bound 5 "1.5", str ">= 1.5"⟩, ⟨.lessThan, bound 6 "1.6", str " < 1.6"⟩] := by
  rfl

theorem newConstraint_row5 : NewConstraint (str ">= 1.6, < 1.7") =
    .ok [⟨.greaterThanEqual, bound 6 "1.6", str ">= 1.6"⟩, ⟨.lessThan, bound 7 "1.7", str " < 1.7"⟩] := by
  rfl

theorem newConstraint_row6 : NewConstraint (str ">= 1.7, < 1.8") =
    .ok [⟨.greaterThanEqual, bound 7 "1.7", str ">= 1.7"⟩, ⟨.lessThan, bound 8 "1.8", str " < 1.8"⟩] := by
  rfl

theorem newConstraint_row7 : NewConstraint (str ">= 1.8, < 1.9") =
    .ok [⟨.greaterThanEqual, bound 8 "1.8", str ">= 1.8"⟩, ⟨.lessThan, bound 9 "1.9", str " < 1.9"⟩] := by
  rfl

theorem newConstraint_row8 : NewConstraint (str ">= 1.9, < 1.10") =
    .ok [⟨.greaterThanEqual, bound 9 "1.9", str ">= 1.9"⟩, ⟨.lessThan, bound 10 "1.10", str " < 1.10"⟩] := by
  rfl

theorem newConstraint_row9 : NewConstraint (str ">=1.10, < 1.11") =
    .ok [⟨.greaterThanEqual, bound 10 "1.10", str ">=1.10"⟩, ⟨.lessThan, bound 11 "1.11", str " < 1.11"⟩] := by
  rfl

theorem cmp_ge_iff (a b c : Int) (rest : List Int) (j : Int) (hc : 0 ≤ c) :
    compareSegments (a :: b :: c :: rest) [1, j, 0] ≥ 0 ↔ (a > 1 ∨ (a = 1 ∧ b ≥ j)) := by
  rw [compareSegments_minor]
  split_ifs <;> omega

theorem cmp_lt_iff (a b c : Int) (rest : List Int) (j : Int) (hc : 0 ≤ c) :
    compareSegments (a :: b :: c :: rest) [1, j, 0] = -1 ↔ (a < 1 ∨ (a = 1 ∧ b < j)) := by
  rw [compareSegments_minor]
  split_ifs <;> constructor <;> intro h <;> first | omega | (norm_num at h)

theorem cmp_le_iff (a b c : Int) (rest : List Int) (j : Int) (hc : 0 ≤ c) :
    compareSegments (a :: b :: c :: rest) [1, j, 0] ≤ 0 ↔
      (a < 1 ∨ (a = 1 ∧ (b < j ∨ (b = j ∧ c = 0 ∧ allZero rest = true)))) := by
  rw [compareSegments_minor]
  cases hz : allZero rest <;> split_ifs <;> simp_all <;> omega

theorem check_range (v : Version) (hv : Plain v) (a b c : Int) (rest : List Int)
    (hseg : v.segments = a :: b :: c :: rest) (j k : Int) (hj : 0 ≤ j) (hk : 0 ≤ k)
    (t u : String) (o p : GoString) :
    Check [⟨.greaterThanEqual, bound j t, o⟩, ⟨.lessThan, bound k u, p⟩] v
      = decide (a = 1 ∧ j ≤ b ∧ b < k) := by
  have hc : 0 ≤ c := hv.2.2 c (by rw [hseg]; simp)
  have e1 := compare_plain v (bound j t) hv (bound_plain j t hj)
  have e2 := compare_plain v (bound k u) hv (bound_plain k u hk)
  have p1 := prereleaseCheck_plain v (bound j t) hv (bound_plain j t hj)
  have p2 := prereleaseCheck_plain v (bound k u) hv (bound_plain k u hk)
  have g := cmp_ge_iff a b c rest j hc
  have l := cmp_lt_iff a b c rest k hc
  simp only [Check, List.all_cons, List.all_nil, Constraint.Check, p1, p2, e1, e2, hseg,
    Bool.true_and, Bool.and_true]
  simp only [bound]
  rw [Bool.eq_iff_iff]
  simp only [Bool.and_eq_true, decide_eq_true_eq, beq_iff_eq]
  rw [g, l]
  omega

theorem check_le (v : Version) (hv : Plain v) (a b c : Int) (rest : List Int)
    (hseg : v.segments = a :: b :: c :: rest) (t : String) (o : GoString) :
    Check [⟨.lessThanEqual, bound 0 t, o⟩] v
      = decide (a < 1 ∨ (a = 1 ∧ b = 0 ∧ (c == 0 && allZero rest) = true)) := by
  have hb : 0 ≤ b := hv.2.2 b (by rw [hseg]; simp)
  have hc : 0 ≤ c := hv.2.2 c (by rw [hseg]; simp)
  have e1 := compare_plain v (bound 0 t) hv (bound_plain 0 t (le_refl _))
  have p1 := prereleaseCheck_plain v (bound 0 t) hv (bound_plain 0 t (le_refl _))
  have g := cmp_le_iff a b c rest 0 hc
  simp only [Check, List.all_cons, List.all_nil, Constraint.Check, p1, e1, hseg,
    Bool.true_and, Bool.and_true]
  simp only [bound]
  rw [Bool.eq_iff_iff]
  simp only [Bool.and_eq_true, decide_eq_true_eq, beq_iff_eq]
  rw [g]
  constructor
  · rintro (h | ⟨h1, h2 | ⟨h2, h3, h4⟩⟩)
    · exact Or.inl h
    · omega
    · exact Or.inr ⟨h1, h2, h3, h4⟩
  · rintro (h | ⟨h1, h2, h3, h4⟩)
    · exact Or.inl h
    · exact Or.inr ⟨h1, Or.inr ⟨h2, h3, h4⟩⟩

theorem scan_cons (v : Version) (c : GoString) (s : Slice) (ps : List (GoString × Slice))
    (cs : List Constraint) (h : NewConstraint c = .ok cs) :
    scan v ((c, s) :: ps) = if Check cs v = true then .value s else scan v ps := by
  simp only [scan, h]

theorem ite_decide_value (p : Prop) [Decidable p] (x y : Slice) (r : Return)
    (h : r = .value y) :
    (if decide p = true then Return.value x else r) = Return.value (if p then x else y) := by
  subst h
  by_cases hp : p
  · rw [if_pos hp, if_pos (decide_eq_true hp)]
  · rw [if_neg hp, if_neg (by rw [decide_eq_false hp]; exact Bool.false_ne_true)]

theorem scan_plain (v : Version) (hv : Plain v) (a b c : Int) (rest : List Int)
    (hseg : v.segments = a :: b :: c :: rest) :
    scan v platforms = .value (resolve a b (c == 0 && allZero rest)) := by
  unfold platforms
  rw [scan_cons v _ _ _ _ newConstraint_row0, check_le v hv a b c rest hseg,
    scan_cons v _ _ _ _ newConstraint_row1,
    check_range v hv a b c rest hseg 1 3 (by norm_num) (by norm_num),
    scan_cons v _ _ _ _ newConstraint_row2,
    check_range v hv a b c rest hseg 3 4 (by norm_num) (by norm_num),
    scan_cons v _ _ _ _ newConstraint_row3,
    check_range v hv a b c rest hseg 4 5 (by norm_num) (by norm_num),
    scan_cons v _ _ _ _ newConstraint_row4,
    check_range v hv a b c rest hseg 5 6 (by norm_num) (by norm_num),
    scan_cons v _ _ _ _ newConstraint_row5,
    check_range v hv a b c rest hseg 6 7 (by norm_num) (by norm_num),
    scan_cons v _ _ _ _ newConstraint_row6,
    check_range v hv a b c rest hseg 7 8 (by norm_num) (by norm_num),
    scan_cons v _ _ _ _ newConstraint_row7,
    check_range v hv a b c rest hseg 8 9 (by norm_num) (by norm_num),
    scan_cons v _ _ _ _ newConstraint_row8,
    check_range v hv a b c rest hseg 9 10 (by norm_num) (by norm_num),
    scan_cons v _ _ _ _ newConstraint_row9,
    check_range v hv a b c rest hseg 10 11 (by norm_num) (by norm_num)]
  have hnil : scan v [] = Return.value Platforms_1_9 := by unfold scan; rfl
  rw [hnil]
  unfold resolve
  generalize Platforms_1_0 = s0
  generalize Platforms_1_10 = s10
  generalize Platforms_1_9 = s9
  generalize Platforms_1_8 = s8
  generalize Platforms_1_7 = s7
  generalize Platforms_1_6 = s6
  generalize Platforms_1_5 = s5
  generalize Platforms_1_4 = s4
  generalize Platforms_1_3 = s3
  generalize Platforms_1_1 = s1
  iterate 10 refine ite_decide_value _ _ _ _ ?_
  rfl

/-! ### Resolution of dotted decimal text -/

theorem str_go : str "go" = [103, 111] := by decide

theorem supported_go (t : GoString) :
    SupportedPlatforms (str "go" ++ t) =
      match NewVersion t with
      | .error err => ⟨[(t, err)], .value PlatformsLatest⟩
      | .ok current => ⟨[], scan current platforms⟩ := by
  unfold SupportedPlatforms
  simp [str_go, HasPrefix]

theorem plain_segments (dss : List GoString) (hne : dss ≠ []) :
    ∃ c rest, (plainVersion dss).segments =
        (segAt (dss.map decVal) 0 : Int) :: (segAt (dss.map decVal) 1 : Int) :: c :: rest
      ∧ ((c == 0 && allZero rest) = true ↔ ∀ i, 2 ≤ i → segAt (dss.map decVal) i = 0) := by
  match dss, hne with
  | [x], _ =>
    refine ⟨0, [], by simp [plainVersion, segAt], ?_⟩
    simp only [allZero, List.all_nil, Bool.and_true, beq_self_eq_true, true_iff]
    intro i hi
    simp only [segAt, List.map_cons, List.map_nil]
    rw [List.getD_eq_default]
    simp; omega
  | [x, y], _ =>
    refine ⟨0, [], by simp [plainVersion, segAt], ?_⟩
    simp only [allZero, List.all_nil, Bool.and_true, beq_self_eq_true, true_iff]
    intro i hi
    simp only [segAt, List.map_cons, List.map_nil]
    rw [List.getD_eq_default]
    simp; omega
  | x :: y :: z :: more, _ =>
    refine ⟨(decVal z : Int), more.map (fun ds => (decVal ds : Int)),
      by simp [plainVersion, segAt], ?_⟩
    simp only [segAt, List.map_cons, Bool.and_eq_true, beq_iff_eq, allZero, List.all_eq_true,
      List.mem_map, forall_exists_index, and_imp, forall_apply_eq_imp_iff₂]
    constructor
    · rintro ⟨h1, h2⟩ i hi
      obtain ⟨k, rfl⟩ : ∃ k, i = k + 2 := ⟨i - 2, by omega⟩
      simp only [List.getD_cons_succ]
      cases k with
      | zero => simpa using h1
      | succ k =>
        simp only [List.getD_cons_succ]
        by_cases hk : k < (more.map decVal).length
        · rw [List.getD_eq_getElem _ _ hk]
          simp only [List.getElem_map]
          have := h2 (more.get ⟨k, by simpa using hk⟩) (List.getElem_mem _)
          exact_mod_cast this
        · rw [List.getD_eq_default _ _ (by omega)]
    · intro h
      refine ⟨?_, ?_⟩
      · have := h 2 (le_refl _)
        simpa using this
      · intro ds hds
        obtain ⟨k, hk, rfl⟩ := List.getElem_of_mem hds
        have := h (k + 3) (by omega)
        simp only [List.getD_cons_succ] at this
        rw [List.getD_eq_getElem _ _ (by simpa using hk)] at this
        simp only [List.getElem_map] at this
        exact_mod_cast this

theorem supported_plain (dss : List GoString) (h : DigitGroups dss)
    (h64 : ∀ ds ∈ dss, decVal ds < 2 ^ 63) :
    ∃ z : Bool, (z = true ↔ ∀ i, 2 ≤ i → segAt (dss.map decVal) i = 0) ∧
      SupportedPlatforms (str "go" ++ Join [46] dss) =
        ⟨[], .value (resolve (segAt (dss.map decVal) 0) (segAt (dss.map decVal) 1) z)⟩ := by
  obtain ⟨c, rest, hseg, hz⟩ := plain_segments dss h.1
  refine ⟨c == 0 && allZero rest, hz, ?_⟩
  rw [supported_go, newVersion_plain dss h h64]
  simp only
  rw [scan_plain (plainVersion dss) (plainVersion_plain dss) _ _ c rest hseg]

theorem segAt_pair (x y i : Nat) :
    segAt [x, y] i = if i = 0 then x else if i = 1 then y else 0 := by
  match i with
  | 0 => rfl
  | 1 => rfl
  | k + 2 => simp [segAt]

theorem verLT_pair_iff (v : List Nat) (x y : Nat) :
    verLT v [x, y] ↔ segAt v 0 < x ∨ (segAt v 0 = x ∧ segAt v 1 < y) := by
  constructor
  · rintro ⟨i, _, heq, hlt⟩
    match i with
    | 0 => left; simpa [segAt_pair] using hlt
    | 1 =>
      right
      have h0 := heq 0 (by omega)
      simp only [segAt_pair] at h0 hlt
      simp at h0 hlt
      exact ⟨h0, hlt⟩
    | k + 2 => simp [segAt_pair] at hlt
  · rintro (h | ⟨h0, h1⟩)
    · exact ⟨0, by simp, by simp, by simpa [segAt_pair] using h⟩
    · refine ⟨1, by simp, ?_, by simpa [segAt_pair] using h1⟩
      intro j hj
      have : j = 0 := by omega
      subst this
      simpa [segAt_pair] using h0

theorem verLT_pair_left (v : List Nat) (x y : Nat) :
    verLT [x, y] v → x < segAt v 0 ∨ (x = segAt v 0 ∧ y < segAt v 1)
      ∨ (x = segAt v 0 ∧ y = segAt v 1 ∧ ∃ i, 2 ≤ i ∧ 0 < segAt v i) := by
  rintro ⟨i, _, heq, hlt⟩
  match i with
  | 0 => left; simpa [segAt_pair] using hlt
  | 1 =>
    right; left
    have h0 := heq 0 (by omega)
    simp only [segAt_pair] at h0 hlt
    simp at h0 hlt
    exact ⟨h0, hlt⟩
  | k + 2 =>
    right; right
    have h0 := heq 0 (by omega)
    have h1 := heq 1 (by omega)
    simp only [segAt_pair] at h0 h1 hlt
    simp at h0 h1 hlt
    exact ⟨h0, h1, k + 2, by omega, hlt⟩

theorem resolve_range (b : Nat) (z : Bool) (lo hi : Nat) (snap : Slice)
    (hrow : (lo, hi, snap) ∈ rangeRows) (h1 : lo ≤ b) (h2 : b < hi) :
    resolve 1 (b : Int) z = snap := by
  have hb : (0 : Int) ≤ b := Int.ofNat_nonneg b
  have e1 : (lo : Int) ≤ b := by exact_mod_cast h1
  have e2 : (b : Int) < hi := by exact_mod_cast h2
  simp only [rangeRows, List.mem_cons, Prod.mk.injEq, List.mem_singleton, List.not_mem_nil,
    or_false] at hrow
  unfold resolve
  have hpos : 1 ≤ lo := by
    rcases hrow with h | h | h | h | h | h | h | h | h <;> omega
  have hfirst : ¬ ((1 : Int) < 1 ∨ ((1 : Int) = 1 ∧ (b : Int) = 0 ∧ z = true)) := by
    rintro (h | ⟨_, h, _⟩) <;> omega
  rw [if_neg hfirst]
  rcases hrow with h | h | h | h | h | h | h | h | h
  all_goals
    obtain ⟨rfl, rfl, rfl⟩ := h
    push_cast at e1 e2
    repeat (first
      | rw [if_pos (by omega)]
      | rw [if_neg (by omega)])

/-- C1 as stated fails: "1.5.9223372036854775808" is dotted decimal text in
the range 1.5 <= v < 1.6 of the row of Platforms_1_5, but its last segment
does not fit int64, so NewVersion rejects it and SupportedPlatforms logs the
error and returns PlatformsLatest (39 entries), not Platforms_1_5 (32). -/
theorem C1_counterexample :
    DigitGroups [str "1", str "5", str "9223372036854775808"]
      ∧ (5, 6, Platforms_1_5) ∈ rangeRows
      ∧ verLE [1, 5] ([str "1", str "5", str "9223372036854775808"].map decVal)
      ∧ verLT ([str "1", str "5", str "9223372036854775808"].map decVal) [1, 6]
      ∧ SupportedPlatforms (str "go1.5.9223372036854775808")
          = ⟨[(str "1.5.9223372036854775808",
                .parsingVersion (str "9223372036854775808"))], .value PlatformsLatest⟩
      ∧ PlatformsLatest ≠ Platforms_1_5
      ∧ (elems PlatformsLatest).length = 39 ∧ (elems Platforms_1_5).length = 32 := by
  decide

/-- C1 amended: for every input "go"+v where v is dotted decimal text whose
segments each fit int64 (are below 2^63) and that lies in the range of a row
(1.lo <= v < 1.hi, segments compared as numbers), SupportedPlatforms returns
the snapshot of that row and logs nothing; the 1.1 snapshot has 19 entries and
the 1.10 snapshot is not the 1.1 snapshot. -/
theorem C1_range_rows (dss : List GoString) (lo hi : Nat) (snap : Slice)
    (hdss : DigitGroups dss) (h64 : ∀ ds ∈ dss, decVal ds < 2 ^ 63)
    (hrow : (lo, hi, snap) ∈ rangeRows)
    (hlo : verLE [1, lo] (dss.map decVal)) (hhi : verLT (dss.map decVal) [1, hi]) :
    SupportedPlatforms (str "go" ++ Join [46] dss) = ⟨[], .value snap⟩
      ∧ (elems Platforms_1_1).length = 19 ∧ Platforms_1_10 ≠ Platforms_1_1 := by
  refine ⟨?_, by decide, by decide⟩
  obtain ⟨z, _, hres⟩ := supported_plain dss hdss h64
  rw [hres]
  have hA := (verLT_pair_iff (dss.map decVal) 1 hi).mp hhi
  have hB : ¬ (segAt (dss.map decVal) 0 < 1
      ∨ (segAt (dss.map decVal) 0 = 1 ∧ segAt (dss.map decVal) 1 < lo)) :=
    fun h => hlo ((verLT_pair_iff (dss.map decVal) 1 lo).mpr h)
  have h0 : segAt (dss.map decVal) 0 = 1 := by omega
  have h1 : lo ≤ segAt (dss.map decVal) 1 := by omega
  have h2 : segAt (dss.map decVal) 1 < hi := by omega
  rw [h0]
  have := resolve_range (segAt (dss.map decVal) 1) z lo hi snap hrow h1 h2
  simp only [Nat.cast_one]
  rw [this]

theorem C1_range_rows_witness :
    (SupportedPlatforms (str "go1.2") = ⟨[], .value Platforms_1_1⟩
      ∧ (elems Platforms_1_1).length = 19 ∧ Platforms_1_10 ≠ Platforms_1_1)
    ∧ (SupportedPlatforms (str "go1.10") = ⟨[], .value Platforms_1_10⟩
      ∧ (elems Platforms_1_1).length = 19 ∧ Platforms_1_10 ≠ Platforms_1_1) :=
  ⟨C1_range_rows [str "1", str "2"] 1 3 Platforms_1_1 (by decide) (by decide) (by decide)
      (by decide) (by decide),
   C1_range_rows [str "1", str "10"] 10 11 Platforms_1_10 (by decide) (by decide) (by decide)
      (by decide) (by decide)⟩

/-- C2: SupportedPlatforms("go1.0") returns Platforms_1_0 and logs nothing;
that snapshot has 11 entries, each with Default = true and an empty ARM. -/
theorem C2_go1_0 :
    SupportedPlatforms (str "go1.0") = ⟨[], .value Platforms_1_0⟩
      ∧ (elems Platforms_1_0).length = 11
      ∧ ∀ p ∈ elems Platforms_1_0, p.Default = true ∧ p.ARM = [] := by
  decide

/-- C3: an input that does not begin with "go" gets PlatformsLatest: nothing
is parsed or logged and the call does not panic. -/
theorem C3_no_go_tag (v : GoString) (h : HasPrefix v (str "go") = false) :
    SupportedPlatforms v = ⟨[], .value PlatformsLatest⟩ := by
  unfold SupportedPlatforms
  simp [h]

theorem C3_no_go_tag_witness :
    SupportedPlatforms (str "nonsense") = ⟨[], .value PlatformsLatest⟩
      ∧ SupportedPlatforms (str "") = ⟨[], .value PlatformsLatest⟩ :=
  ⟨C3_no_go_tag (str "nonsense") (by decide), C3_no_go_tag (str "") (by decide)⟩

/-- C4: an input that begins with "go" and whose remainder (the input without
its first two bytes) NewVersion rejects gets PlatformsLatest; the error is
logged and the call ends with a returned slice, not with the error. -/
theorem C4_unparseable (v : GoString) (err : version.Error)
    (h : HasPrefix v (str "go") = true)
    (he : NewVersion (v.drop 2) = .error err) :
    SupportedPlatforms v = ⟨[(v.drop 2, err)], .value PlatformsLatest⟩ := by
  unfold SupportedPlatforms
  simp [h, he]

theorem C4_unparseable_witness :
    SupportedPlatforms (str "go") = ⟨[([], .malformedVersion [])], .value PlatformsLatest⟩
      ∧ SupportedPlatforms (str "gofoo")
          = ⟨[(str "foo", .malformedVersion (str "foo"))], .value PlatformsLatest⟩ :=
  ⟨C4_unparseable (str "go") (.malformedVersion []) (by decide) rfl,
   C4_unparseable (str "gofoo") (.malformedVersion (str "foo")) (by decide) rfl⟩

/-- C5 as stated fails: SupportedPlatforms("go0.9") does not return the
fallback Platforms_1_9; what it returns has 11 entries, the fallback 39. -/
theorem C5_counterexample :
    (SupportedPlatforms (str "go0.9")).result ≠ .value Platforms_1_9
      ∧ (∃ s, (SupportedPlatforms (str "go0.9")).result = .value s
          ∧ (elems s).length = 11 ∧ (elems Platforms_1_9).length = 39) := by
  refine ⟨by decide, Platforms_1_0, by decide, by decide, by decide⟩

/-- C5 amended: the version 0.9 is below the lower bound of every two-sided
row but satisfies the first row "<= 1.0", so SupportedPlatforms("go0.9")
returns the snapshot of that row, Platforms_1_0. -/
theorem C5_go0_9 :
    SupportedPlatforms (str "go0.9") = ⟨[], .value Platforms_1_0⟩
      ∧ (∃ current cs, NewVersion (str "0.9") = .ok current
          ∧ NewConstraint (str "<= 1.0") = .ok cs ∧ Check cs current = true) := by
  refine ⟨by decide, plainVersion [str "0", str "9"], _, rfl, newConstraint_row0, by decide⟩

theorem parseInt_digits_inv (ds : GoString) (h1 : ds ≠ []) (h2 : ds.all isDigit = true)
    (n : Int) (h : ParseInt ds = some n) : decVal ds < 2 ^ 63 := by
  cases ds with
  | nil => exact absurd rfl h1
  | cons c t =>
    have hc : isDigit c = true := List.all_eq_true.mp h2 c (by simp)
    have h43 : c ≠ 43 := by intro e; simp [e, isDigit] at hc
    have h45 : c ≠ 45 := by intro e; simp [e, isDigit] at hc
    simp only [ParseInt, h43, h45, if_false, parseMagnitude, h2] at h
    simp at h
    have e : (2 : Nat) ^ 63 = 9223372036854775808 := by norm_num
    rw [e]
    exact h.1

theorem parseSegments_ok_inv (dss : List GoString)
    (h : ∀ ds ∈ dss, ds ≠ [] ∧ ds.all isDigit = true) (segs : List Int)
    (hok : parseSegments dss = .ok segs) : ∀ ds ∈ dss, decVal ds < 2 ^ 63 := by
  induction dss generalizing segs with
  | nil => intro ds hds; simp at hds
  | cons a rest ih =>
    simp only [parseSegments] at hok
    cases hp : ParseInt a with
    | none => simp [hp] at hok
    | some n =>
      simp only [hp] at hok
      cases hr : parseSegments rest with
      | error e => simp [hr] at hok
      | ok ns =>
        intro ds hds
        rcases List.mem_cons.mp hds with rfl | hm
        · exact parseInt_digits_inv ds (h ds (by simp)).1 (h ds (by simp)).2 n hp
        · exact ih (fun d m => h d (by simp [m])) ns hr ds hm

theorem newVersion_ok_inv (dss : List GoString) (h : DigitGroups dss) (current : Version)
    (hok : NewVersion (Join [46] dss) = .ok current) :
    (∀ ds ∈ dss, decVal ds < 2 ^ 63) ∧ current = plainVersion dss := by
  have hsplit := split_join 46 dss h.1 (fun g m => dot_not_mem_of_digits g (h.2 g m).2)
  have h64 : ∀ ds ∈ dss, decVal ds < 2 ^ 63 := by
    unfold NewVersion at hok
    rw [matchVersion_plain dss h] at hok
    simp only [hsplit] at hok
    cases hr : parseSegments dss with
    | error e => simp [hr] at hok
    | ok ns => exact parseSegments_ok_inv dss h.2 ns hr
  refine ⟨h64, ?_⟩
  rw [newVersion_plain dss h h64] at hok
  injection hok with hok
  exact hok.symm

theorem no_row_matches (v : Version) (hv : Plain v) (a b c : Int) (rest : List Int)
    (hseg : v.segments = a :: b :: c :: rest) (hab : a > 1 ∨ (a = 1 ∧ b ≥ 11)) :
    ∀ p ∈ platforms, ∀ cs, NewConstraint p.1 = .ok cs → Check cs v = false := by
  intro p hp cs hcs
  unfold platforms at hp
  simp only [List.mem_cons, List.mem_singleton, List.not_mem_nil, or_false] at hp
  rcases hp with rfl | rfl | rfl | rfl | rfl | rfl | rfl | rfl | rfl | rfl
  · dsimp only at hcs
    rw [newConstraint_row0] at hcs
    injection hcs with hcs
    subst hcs
    rw [check_le v hv a b c rest hseg]
    simp only [decide_eq_false_iff_not]
    rintro (h | ⟨h, _⟩) <;> omega
  · dsimp only at hcs
    rw [newConstraint_row1] at hcs
    injection hcs with hcs
    subst hcs
    rw [check_range v hv a b c rest hseg 1 3 (by norm_num) (by norm_num)]
    simp only [decide_eq_false_iff_not]
    omega
  · dsimp only at hcs
    rw [newConstraint_row2] at hcs
    injection hcs with hcs
    subst hcs
    rw [check_range v hv a b c rest hseg 3 4 (by norm_num) (by norm_num)]
    simp only [decide_eq_false_iff_not]
    omega
  · dsimp only at hcs
    rw [newConstraint_row3] at hcs
    injection hcs with hcs
    subst hcs
    rw [check_range v hv a b c rest hseg 4 5 (by norm_num) (by norm_num)]
    simp only [decide_eq_false_iff_not]
    omega
  · dsimp only at hcs
    rw [newConstraint_row4] at hcs
    injection hcs with hcs
    subst hcs
    rw [check_range v hv a b c rest hseg 5 6 (by norm_num) (by norm_num)]
    simp only [decide_eq_false_iff_not]
    omega
  · dsimp only at hcs
    rw [newConstraint_row5] at hcs
    injection hcs with hcs
    subst hcs
    rw [check_range v hv a b c rest hseg 6 7 (by norm_num) (by norm_num)]
    simp only [decide_eq_false_iff_not]
    omega
  · dsimp only at hcs
    rw [newConstraint_row6] at hcs
    injection hcs with hcs
    subst hcs
    rw [check_range v hv a b c rest hseg 7 8 (by norm_num) (by norm_num)]
    simp only [decide_eq_false_iff_not]
    omega
  · dsimp only at hcs
    rw [newConstraint_row7] at hcs
    injection hcs with hcs
    subst hcs
    rw [check_range v hv a b c rest hseg 8 9 (by norm_num) (by norm_num)]
    simp only [decide_eq_false_iff_not]
    omega
  · dsimp only at hcs
    rw [newConstraint_row8] at hcs
    injection hcs with hcs
    subst hcs
    rw [check_range v hv a b c rest hseg 9 10 (by norm_num) (by norm_num)]
    simp only [decide_eq_false_iff_not]
    omega
  · dsimp only at hcs
    rw [newConstraint_row9] at hcs
    injection hcs with hcs
    subst hcs
    rw [check_range v hv a b c rest hseg 10 11 (by norm_num) (by norm_num)]
    simp only [decide_eq_false_iff_not]
    omega

theorem resolve_above (a b : Int) (z : Bool) (hab : a > 1 ∨ (a = 1 ∧ b ≥ 11)) :
    resolve a b z = Platforms_1_9 := by
  unfold resolve
  have hfirst : ¬ (a < 1 ∨ (a = 1 ∧ b = 0 ∧ z = true)) := by
    rintro (h | ⟨h1, h2, _⟩) <;> omega
  rw [if_neg hfirst]
  repeat rw [if_neg (by omega)]

/-- C6: for every input "go"+v where v is dotted decimal text with
v >= 1.11, SupportedPlatforms returns Platforms_1_9; when v parses, none of the
ten constraints of the table holds for it and nothing is logged. -/
theorem C6_above_every_range (dss : List GoString) (hdss : DigitGroups dss)
    (hge : verLE [1, 11] (dss.map decVal)) :
    (SupportedPlatforms (str "go" ++ Join [46] dss)).result = .value Platforms_1_9
      ∧ ∀ current, NewVersion (Join [46] dss) = .ok current →
          (∀ p ∈ platforms, ∀ cs, NewConstraint p.1 = .ok cs → Check cs current = false)
          ∧ SupportedPlatforms (str "go" ++ Join [46] dss) = ⟨[], .value Platforms_1_9⟩ := by
  have hB : ¬ (segAt (dss.map decVal) 0 < 1
      ∨ (segAt (dss.map decVal) 0 = 1 ∧ segAt (dss.map decVal) 1 < 11)) :=
    fun h => hge ((verLT_pair_iff (dss.map decVal) 1 11).mpr h)
  have hab : ((segAt (dss.map decVal) 0 : Nat) : Int) > 1
      ∨ (((segAt (dss.map decVal) 0 : Nat) : Int) = 1
          ∧ ((segAt (dss.map decVal) 1 : Nat) : Int) ≥ 11) := by omega
  have hparsed : ∀ current, NewVersion (Join [46] dss) = .ok current →
      (∀ p ∈ platforms, ∀ cs, NewConstraint p.1 = .ok cs → Check cs current = false)
      ∧ SupportedPlatforms (str "go" ++ Join [46] dss) = ⟨[], .value Platforms_1_9⟩ := by
    intro current hok
    obtain ⟨h64, rfl⟩ := newVersion_ok_inv dss hdss current hok
    obtain ⟨c, rest, hseg, _⟩ := plain_segments dss hdss.1
    refine ⟨no_row_matches _ (plainVersion_plain dss) _ _ c rest hseg hab, ?_⟩
    rw [supported_go, hok]
    simp only
    rw [scan_plain (plainVersion dss) (plainVersion_plain dss) _ _ c rest hseg,
      resolve_above _ _ _ hab]
  refine ⟨?_, hparsed⟩
  cases hnv : NewVersion (Join [46] dss) with
  | error e =>
    rw [supported_go, hnv]
    rfl
  | ok current => rw [(hparsed current hnv).2]

theorem C6_above_every_range_witness :
    (SupportedPlatforms (str "go9.9.9")).result = .value Platforms_1_9
      ∧ NewVersion (str "9.9.9") = .ok (plainVersion [str "9", str "9", str "9"])
      ∧ SupportedPlatforms (str "go9.9.9") = ⟨[], .value Platforms_1_9⟩ :=
  ⟨(C6_above_every_range [str "9", str "9", str "9"] (by decide) (by decide)).1, rfl,
   ((C6_above_every_range [str "9", str "9", str "9"] (by decide) (by decide)).2
      (plainVersion [str "9", str "9", str "9"]) rfl).2⟩

theorem ite_mem (p : Prop) [Decidable p] (x : Slice) (r : Return) (l : List Slice)
    (hx : x ∈ l) (hr : ∃ s ∈ l, r = .value s) :
    ∃ s ∈ l, (if p then Return.value x else r) = .value s := by
  by_cases hp : p
  · exact ⟨x, hx, by rw [if_pos hp]⟩
  · obtain ⟨s, hs, e⟩ := hr
    exact ⟨s, hs, by rw [if_neg hp, e]⟩

theorem scan_value (v : Version) : ∃ s ∈ snapshots, scan v platforms = .value s := by
  unfold platforms
  rw [scan_cons v _ _ _ _ newConstraint_row0, scan_cons v _ _ _ _ newConstraint_row1,
    scan_cons v _ _ _ _ newConstraint_row2, scan_cons v _ _ _ _ newConstraint_row3,
    scan_cons v _ _ _ _ newConstraint_row4, scan_cons v _ _ _ _ newConstraint_row5,
    scan_cons v _ _ _ _ newConstraint_row6, scan_cons v _ _ _ _ newConstraint_row7,
    scan_cons v _ _ _ _ newConstraint_row8, scan_cons v _ _ _ _ newConstraint_row9]
  have hnil : scan v [] = Return.value Platforms_1_9 := by unfold scan; rfl
  rw [hnil]
  unfold snapshots
  iterate 10 refine ite_mem _ _ _ _ (by simp only [List.mem_cons, true_or, or_true]) ?_
  exact ⟨Platforms_1_9, by simp only [List.mem_cons, true_or, or_true], rfl⟩

theorem platforms_well_formed :
    ∀ p ∈ platforms, ∃ cs, NewConstraint p.1 = .ok cs := by
  intro p hp
  unfold platforms at hp
  simp only [List.mem_cons, List.mem_singleton, List.not_mem_nil, or_false] at hp
  rcases hp with rfl | rfl | rfl | rfl | rfl | rfl | rfl | rfl | rfl | rfl
  · exact ⟨_, newConstraint_row0⟩
  · exact ⟨_, newConstraint_row1⟩
  · exact ⟨_, newConstraint_row2⟩
  · exact ⟨_, newConstraint_row3⟩
  · exact ⟨_, newConstraint_row4⟩
  · exact ⟨_, newConstraint_row5⟩
  · exact ⟨_, newConstraint_row6⟩
  · exact ⟨_, newConstraint_row7⟩
  · exact ⟨_, newConstraint_row8⟩
  · exact ⟨_, newConstraint_row9⟩

/-- C7: for every input, SupportedPlatforms ends by returning a slice (it
does not panic) that is one of the snapshots of the table and has at least 11
entries; each of the ten constraint strings of the table parses, and each row
and each fallback has at least 11 entries. -/
theorem C7_total_nonempty (v : GoString) :
    (∃ s ∈ snapshots, (SupportedPlatforms v).result = .value s ∧ 11 ≤ (elems s).length)
      ∧ (∀ p ∈ platforms, ∃ cs, NewConstraint p.1 = .ok cs)
      ∧ (∀ p ∈ platforms, 11 ≤ (elems p.2).length)
      ∧ 11 ≤ (elems PlatformsLatest).length ∧ 11 ≤ (elems Platforms_1_9).length := by
  have hlen : ∀ s ∈ snapshots, 11 ≤ (elems s).length := by decide
  have hlatest : PlatformsLatest ∈ snapshots := by decide
  refine ⟨?_, platforms_well_formed, by decide, by decide, by decide⟩
  unfold SupportedPlatforms
  by_cases hp : HasPrefix v (str "go") = true
  · simp only [hp, Bool.not_true, Bool.false_eq_true, if_false]
    cases hnv : NewVersion (List.drop 2 v) with
    | error e => exact ⟨PlatformsLatest, hlatest, rfl, hlen _ hlatest⟩
    | ok current =>
      obtain ⟨s, hs, e⟩ := scan_value current
      exact ⟨s, hs, e, hlen s hs⟩
  · simp only [hp, Bool.not_false, if_true]
    exact ⟨PlatformsLatest, hlatest, rfl, hlen _ hlatest⟩

theorem str_armv : str "armv" = [97, 114, 109, 118] := by decide

theorem fromString_armv (os N : GoString) (hne : N ≠ []) :
    (PlatformFromString os (str "armv" ++ N)).Arch = str "arm"
      ∧ (PlatformFromString os (str "armv" ++ N)).ARM = N := by
  unfold PlatformFromString
  simp only [str_armv, HasPrefix]
  cases N with
  | nil => exact absurd rfl hne
  | cons c t => simp

/-- C8: for every os and every arch "armv"+N with N one or more digits,
PlatformFromString gives OS = os, Arch = "arm", ARM = N, Default = false; its
GetArch is "arm"+"v"+N and its String is os+"/armv"+N. -/
theorem C8_arm_variant (os N : GoString) (hne : N ≠ []) (_hdig : N.all isDigit = true) :
    PlatformFromString os (str "armv" ++ N)
        = { OS := os, Arch := str "arm", Default := false, ARM := N }
      ∧ (PlatformFromString os (str "armv" ++ N)).GetArch = str "arm" ++ str "v" ++ N
      ∧ (PlatformFromString os (str "armv" ++ N)).String = os ++ str "/armv" ++ N := by
  have hlen : 0 < N.length := List.length_pos.mpr hne
  have e : PlatformFromString os (str "armv" ++ N)
      = { OS := os, Arch := str "arm", Default := false, ARM := N } := by
    unfold PlatformFromString
    simp only [str_armv, HasPrefix]
    simp
    intro h
    exact absurd h hne
  rw [e]
  refine ⟨rfl, ?_, ?_⟩
  · simp only [Platform.GetArch, Platform.GetARMVersion, hlen, if_true, List.append_assoc]
  · simp only [Platform.String, Platform.GetArch, Platform.GetARMVersion, hlen, if_true]
    have : str "/armv" = str "/" ++ str "arm" ++ str "v" := by decide
    rw [this]
    simp only [List.append_assoc]

theorem C8_arm_variant_witness :
    PlatformFromString (str "linux") (str "armv6")
        = { OS := str "linux", Arch := str "arm", Default := false, ARM := str "6" }
      ∧ (PlatformFromString (str "linux") (str "armv6")).GetArch = str "arm" ++ str "v" ++ str "6"
      ∧ (PlatformFromString (str "linux") (str "armv6")).String
          = str "linux" ++ str "/armv" ++ str "6" :=
  C8_arm_variant (str "linux") (str "6") (by decide) (by decide)

theorem hasPrefix_iff (s p : GoString) : HasPrefix s p = true ↔ ∃ t, s = p ++ t := by
  unfold HasPrefix
  rw [beq_iff_eq]
  constructor
  · intro h
    refine ⟨s.drop p.length, ?_⟩
    conv_lhs => rw [← List.take_append_drop p.length s]
    rw [h]
  · rintro ⟨t, rfl⟩
    simp

theorem str_arm : str "arm" = [97, 114, 109] := by decide

theorem str_v : str "v" = [118] := by decide

theorem fromString_plain (os arch : GoString)
    (h : ¬ ∃ N, N ≠ [] ∧ arch = str "armv" ++ N) :
    PlatformFromString os arch = { OS := os, Arch := arch, Default := false, ARM := [] } := by
  unfold PlatformFromString
  by_cases hp : HasPrefix arch (str "armv") = true
  · obtain ⟨t, rfl⟩ := (hasPrefix_iff _ _).mp hp
    have ht : t = [] := by
      by_contra hne
      exact h ⟨t, hne, rfl⟩
    subst ht
    simp [str_armv]
  · simp [hp]

theorem getArch_fromString (os arch : GoString) :
    (PlatformFromString os arch).GetArch = arch := by
  by_cases h : ∃ N, N ≠ [] ∧ arch = str "armv" ++ N
  · obtain ⟨N, hne, rfl⟩ := h
    have hlen : 0 < N.length := List.length_pos.mpr hne
    obtain ⟨h1, h2⟩ := fromString_armv os N hne
    unfold Platform.GetArch Platform.GetARMVersion
    rw [h1, h2, if_pos hlen, str_arm, str_v, str_armv]
    rfl
  · rw [fromString_plain os arch h]
    simp [Platform.GetArch, Platform.GetARMVersion]

/-- C9 as stated fails: "armvx" is not "armv" followed by digits, yet
PlatformFromString stores Arch = "arm" and ARM = "x" for it. -/
theorem C9_counterexample :
    isArmVariant (str "armvx") = false
      ∧ (PlatformFromString (str "linux") (str "armvx")).ARM = str "x"
      ∧ (PlatformFromString (str "linux") (str "armvx")).ARM ≠ []
      ∧ (PlatformFromString (str "linux") (str "armvx")).Arch = str "arm"
      ∧ (PlatformFromString (str "linux") (str "armvx")).Arch ≠ str "armvx" := by
  decide

/-- C9 amended: for every os and every arch that is not "armv" followed by one
or more digits, GetArch of PlatformFromString(os, arch) is arch unchanged; ARM
is empty and Arch is arch when arch is not "armv" followed by at least one
byte; when it is "armv" followed by bytes N, Arch is "arm" and ARM is N. -/
theorem C9_not_arm_variant (os arch : GoString) (_h : isArmVariant arch = false) :
    (PlatformFromString os arch).GetArch = arch
      ∧ ((¬ ∃ N, N ≠ [] ∧ arch = str "armv" ++ N) →
          (PlatformFromString os arch).ARM = [] ∧ (PlatformFromString os arch).Arch = arch)
      ∧ (∀ N, N ≠ [] → arch = str "armv" ++ N →
          (PlatformFromString os arch).Arch = str "arm" ∧ (PlatformFromString os arch).ARM = N) := by
  refine ⟨getArch_fromString os arch, ?_, ?_⟩
  · intro hno
    rw [fromString_plain os arch hno]
    exact ⟨rfl, rfl⟩
  · intro N hne e
    subst e
    exact ⟨(fromString_armv os N hne).1, (fromString_armv os N hne).2⟩

theorem C9_not_arm_variant_witness :
    ((PlatformFromString (str "linux") (str "arm64")).GetArch = str "arm64"
      ∧ (PlatformFromString (str "linux") (str "arm64")).ARM = []
      ∧ (PlatformFromString (str "linux") (str "arm64")).Arch = str "arm64")
    ∧ ((PlatformFromString (str "linux") (str "armvx")).GetArch = str "armvx"
      ∧ (PlatformFromString (str "linux") (str "armvx")).Arch = str "arm"
      ∧ (PlatformFromString (str "linux") (str "armvx")).ARM = str "x") :=
  ⟨⟨(C9_not_arm_variant (str "linux") (str "arm64") (by decide)).1,
    (C9_not_arm_variant (str "linux") (str "arm64") (by decide)).2.1
      (by rintro ⟨N, _, h⟩; simp [str, str_armv] at h)⟩,
   ⟨(C9_not_arm_variant (str "linux") (str "armvx") (by decide)).1,
    (C9_not_arm_variant (str "linux") (str "armvx") (by decide)).2.2
      (str "x") (by decide) (by decide)⟩⟩

/-- C10: for every Platform p, GetARMVersion is "v"+ARM when ARM is not empty
and "" otherwise, GetArch is Arch followed by GetARMVersion, and String is
OS+"/"+GetArch; the table entry linux/arm with ARM "5" displays as
"linux/armv5" and the entry linux/arm with empty ARM as "linux/arm". -/
theorem C10_display (p : Platform) :
    p.GetARMVersion = (if p.ARM ≠ [] then str "v" ++ p.ARM else [])
      ∧ p.GetArch = p.Arch ++ p.GetARMVersion
      ∧ p.String = p.OS ++ str "/" ++ p.GetArch
      ∧ platARM "linux" "arm" false "5" ∈ elems Platforms_1_1
      ∧ (platARM "linux" "arm" false "5").String = str "linux/armv5"
      ∧ plat "linux" "arm" true ∈ elems Platforms_1_0
      ∧ (plat "linux" "arm" true).String = str "linux/arm" := by
  refine ⟨?_, rfl, rfl, by decide, by decide, by decide, by decide⟩
  unfold Platform.GetARMVersion
  cases h : p.ARM with
  | nil => simp
  | cons c t => simp

/-! ### The chain of snapshots -/

/-- C11: for every step of the chain other than 1_6 -> 1_7, every platform
identity (OS, Arch, ARM) of the earlier snapshot occurs in the later one, and
for every step declared as append on the snapshot right before it the earlier
list is an initial part of the later list. -/
theorem C11_chain_monotone :
    (∀ st ∈ chainSteps, covers (elems st.1) (elems st.2))
      ∧ (∀ st ∈ appendSteps, elems st.1 <+: elems st.2) := by
  decide

/-- C12 as stated fails: no platform identity of Platforms_1_6 is absent from
Platforms_1_7; the mips-class identities linux/mips64 and linux/mips64le the
declaration of Platforms_1_6 appends are entries of Platforms_1_7 and of
PlatformsLatest. -/
theorem C12_counterexample :
    declared_1_6 = elems Platforms_1_5 ++ added_1_6
      ∧ covers declared_1_6 (elems Platforms_1_7)
      ∧ covers (elems Platforms_1_6) (elems Platforms_1_7)
      ∧ plat "linux" "mips64" true ∈ elems Platforms_1_7
      ∧ plat "linux" "mips64le" true ∈ elems Platforms_1_7
      ∧ plat "linux" "mips64" true ∈ elems PlatformsLatest
      ∧ plat "linux" "mips64le" true ∈ elems PlatformsLatest := by
  decide

/-- C12 amended: re-deriving Platforms_1_7 from Platforms_1_5 drops no
platform identity: the three entries appended for 1.6 are appended again for
1.7 (linux/mips64 and linux/mips64le now with Default = true), so every
identity (OS, Arch, ARM) of Platforms_1_6 is present in Platforms_1_7 and in
every later snapshot. -/
theorem C12_nothing_dropped :
    (∀ s ∈ laterSnapshots, covers declared_1_6 (elems s) ∧ covers (elems Platforms_1_6) (elems s))
      ∧ elems Platforms_1_7 = elems Platforms_1_5 ++
          [plat "linux" "s390x" true, plat "plan9" "arm" false, plat "android" "386" false,
           plat "linux" "mips64" true, plat "linux" "mips64le" true]
      ∧ covers added_1_6 (elems Platforms_1_7) := by
  decide

/-- C13: no entry of PlatformsLatest with Default = true has a non-empty ARM;
the same holds for every snapshot, and the only entries with a non-empty ARM
are linux/arm with ARM 5, 6 or 7, all with Default = false. -/
theorem C13_default_no_arm :
    (∀ p ∈ elems PlatformsLatest, p.Default = true → p.ARM = [])
      ∧ (∀ s ∈ snapshots, ∀ p ∈ elems s, p.Default = true → p.ARM = [])
      ∧ (∀ s ∈ snapshots, ∀ p ∈ elems s, p.ARM ≠ [] →
          p.OS = str "linux" ∧ p.Arch = str "arm" ∧ p.Default = false
            ∧ p.ARM ∈ [str "5", str "6", str "7"]) := by
  decide

/-- C15 on the code: once every package-level variable is initialised, the
slice SupportedPlatforms("go1.6") returns is Platforms_1_6 with 35 entries, but
its last three entries are the first three the declaration of Platforms_1_7
wrote into the shared array: linux/s390x (Default = true), plan9/arm and
android/386; it has no linux/mips64 entry.  Right after its own
initialisation Platforms_1_6 was Platforms_1_5 followed by android/386,
linux/mips64 and linux/mips64le. -/
theorem C15_go1_6_overwritten :
    SupportedPlatforms (str "go1.6") = ⟨[], .value Platforms_1_6⟩
      ∧ declared_1_6 = elems Platforms_1_5 ++ added_1_6
      ∧ Platforms_1_6.arr = Platforms_1_7.arr
      ∧ elems Platforms_1_6 = elems Platforms_1_5 ++
          [plat "linux" "s390x" true, plat "plan9" "arm" false, plat "android" "386" false]
      ∧ (elems Platforms_1_6).length = 35
      ∧ plat "linux" "s390x" true ∈ elems Platforms_1_6
      ∧ (∀ p ∈ elems Platforms_1_6, ¬ (p.OS = str "linux" ∧ p.Arch = str "mips64")) := by
  decide

/-- C16 as stated fails: linux/s390x is an entry of PlatformsLatest and
"s390x" is not in ArchList. -/
theorem C16_counterexample :
    plat "linux" "s390x" true ∈ elems PlatformsLatest
      ∧ (plat "linux" "s390x" true).Arch = str "s390x"
      ∧ str "s390x" ∉ ArchList := by
  decide

/-- C16 amended: every platform of every snapshot has its OS in OsList; every
platform of the snapshots up to Platforms_1_5 has its Arch in ArchList; in the
snapshots from Platforms_1_7 on (PlatformsLatest among them) the Arch is in
ArchList or is one of "s390x", "mips", "mipsle", which ArchList lacks. -/
theorem C16_os_arch_lists :
    (∀ s ∈ snapshots, ∀ p ∈ elems s, p.OS ∈ OsList)
      ∧ (∀ s ∈ earlySnapshots, ∀ p ∈ elems s, p.Arch ∈ ArchList)
      ∧ (∀ s ∈ laterSnapshots, ∀ p ∈ elems s,
          p.Arch ∈ ArchList ∨ p.Arch ∈ [str "s390x", str "mips", str "mipsle"])
      ∧ (∀ a ∈ [str "s390x", str "mips", str "mipsle"],
          a ∉ ArchList ∧ ∃ p ∈ elems PlatformsLatest, p.Arch = a) := by
  decide

/-- C17: for every os and every arch, of any shape, GetArch of
PlatformFromString(os, arch) is arch and String is os+"/"+arch. -/
theorem C17_round_trip (os arch : GoString) :
    (PlatformFromString os arch).GetArch = arch
      ∧ (PlatformFromString os arch).String = os ++ str "/" ++ arch
      ∧ (PlatformFromString os arch).OS = os := by
  have hos : (PlatformFromString os arch).OS = os := by
    unfold PlatformFromString
    split_ifs <;> rfl
  refine ⟨getArch_fromString os arch, ?_, hos⟩
  unfold Platform.String
  rw [getArch_fromString os arch, hos]

/-! ### The rows a parsed version satisfies -/

theorem scan_eq_find (v : Version) (l : List (GoString × Slice))
    (hl : ∀ p ∈ l, ∃ cs, NewConstraint p.1 = .ok cs) :
    scan v l = match l.find? (rowMatches v) with
      | some p => .value p.2
      | none => .value Platforms_1_9 := by
  induction l with
  | nil => unfold scan; rfl
  | cons p ps ih =>
    obtain ⟨cs, hcs⟩ := hl p (by simp)
    have hps := ih (fun q hq => hl q (by simp [hq]))
    have hm : rowMatches v p = Check cs v := by
      unfold rowMatches
      rw [hcs]
    obtain ⟨c, s⟩ := p
    rw [scan_cons v c s ps cs hcs, List.find?_cons, hm]
    cases hc : Check cs v
    · simp only [Bool.false_eq_true, if_false]
      exact hps
    · simp only [if_true]

theorem find_perm {α : Type} (f : α → Bool) (l m : List α) (hperm : List.Perm m l)
    (huniq : ∀ p ∈ l, ∀ q ∈ l, f p = true → f q = true → p = q) :
    m.find? f = l.find? f := by
  cases h : l.find? f with
  | none =>
    rw [List.find?_eq_none] at h ⊢
    intro x hx
    exact h x (hperm.mem_iff.mp hx)
  | some p =>
    have hp : p ∈ l := List.mem_of_find?_eq_some h
    have hfp : f p = true := List.find?_some h
    cases h2 : m.find? f with
    | none =>
      rw [List.find?_eq_none] at h2
      exact absurd hfp (h2 p (hperm.mem_iff.mpr hp))
    | some q =>
      have hq : q ∈ l := hperm.mem_iff.mp (List.mem_of_find?_eq_some h2)
      have hfq : f q = true := List.find?_some h2
      rw [huniq q hq p hp hfq hfp]

theorem scan_perm (v : Version) (rows : List (GoString × Slice))
    (hperm : List.Perm rows platforms)
    (huniq : ∀ p ∈ platforms, ∀ q ∈ platforms,
      rowMatches v p = true → rowMatches v q = true → p = q) :
    scan v rows = scan v platforms := by
  rw [scan_eq_find v platforms platforms_well_formed,
    scan_eq_find v rows (fun p hp => platforms_well_formed p (hperm.mem_iff.mp hp)),
    find_perm (rowMatches v) platforms rows hperm huniq]

theorem split_mem_bytes (sep : Nat) (s : GoString) :
    ∀ g ∈ Split sep s, ∀ b ∈ g, b ∈ s := by
  induction s with
  | nil =>
    intro g hg b hb
    simp only [Split, List.mem_singleton] at hg
    subst hg
    exact hb
  | cons c cs ih =>
    intro g hg b hb
    unfold Split at hg
    by_cases hc : c = sep
    · rw [if_pos hc] at hg
      rcases List.mem_cons.mp hg with rfl | hg
      · simp at hb
      · exact List.mem_cons_of_mem _ (ih g hg b hb)
    · rw [if_neg hc] at hg
      cases hs : Split sep cs with
      | nil =>
        rw [hs] at hg
        simp only [List.mem_singleton] at hg
        subst hg
        simp only [List.mem_singleton] at hb
        subst hb
        simp
      | cons g0 gs =>
        rw [hs] at hg ih
        simp only at hg
        rcases List.mem_cons.mp hg with rfl | hg
        · rcases List.mem_cons.mp hb with rfl | hb
          · simp
          · exact List.mem_cons_of_mem _ (ih g0 (by simp) b hb)
        · exact List.mem_cons_of_mem _ (ih g (by simp [hg]) b hb)

theorem parseInt_nonneg (g : GoString) (hg : 45 ∉ g) (x : Int)
    (h : ParseInt g = some x) : 0 ≤ x := by
  have key : ∀ ds, parseMagnitude false ds = some x → 0 ≤ x := by
    intro ds hd
    simp only [parseMagnitude, Bool.false_eq_true, if_false] at hd
    split_ifs at hd
    injection hd with hd
    rw [← hd]
    exact Int.ofNat_nonneg _
  cases g with
  | nil => simp [ParseInt] at h
  | cons c t =>
    have hc : c ≠ 45 := fun e => hg (by simp [e])
    simp only [ParseInt] at h
    by_cases h43 : c = 43
    · rw [if_pos h43] at h
      exact key t h
    · rw [if_neg h43, if_neg hc] at h
      exact key (c :: t) h

theorem parseSegments_nonneg (gs : List GoString) (hgs : ∀ g ∈ gs, 45 ∉ g)
    (segs : List Int) (h : parseSegments gs = .ok segs) : ∀ x ∈ segs, 0 ≤ x := by
  induction gs generalizing segs with
  | nil =>
    simp only [parseSegments] at h
    injection h with h
    subst h
    intro x hx
    simp at hx
  | cons g rest ih =>
    simp only [parseSegments] at h
    cases hp : ParseInt g with
    | none => simp [hp] at h
    | some n =>
      simp only [hp] at h
      cases hr : parseSegments rest with
      | error e => simp [hr] at h
      | ok ns =>
        simp only [hr] at h
        injection h with h
        subst h
        intro x hx
        rcases List.mem_cons.mp hx with rfl | hx
        · exact parseInt_nonneg g (hgs g (by simp)) _ hp
        · exact ih (fun q hq => hgs q (by simp [hq])) ns hr x hx

theorem matchVersion_body (text body pre md : GoString)
    (h : matchVersion text = some (body, pre, md)) :
    ∀ b ∈ body, (isDigit b || b == 46) = true := by
  unfold matchVersion at h
  simp only at h
  split_ifs at h
  split at h
  · injection h with h
    injection h with h1 h2
    subst h1
    intro b hb
    exact List.mem_takeWhile_imp (p := fun b => isDigit b || b == 46) hb
  · exact absurd h (by simp)

/-- Every version `NewVersion` builds has at least three segments, none of
them negative. -/
theorem newVersion_segments (text : GoString) (v : Version)
    (h : NewVersion text = .ok v) :
    (∀ x ∈ v.segments, 0 ≤ x) ∧ 3 ≤ v.segments.length := by
  unfold NewVersion at h
  cases hm : matchVersion text with
  | none => simp [hm] at h
  | some r =>
    obtain ⟨body, pre, md⟩ := r
    simp only [hm] at h
    cases hp : parseSegments (Split 46 body) with
    | error e => simp [hp] at h
    | ok segs =>
      simp only [hp] at h
      injection h with h
      subst h
      have hbody := matchVersion_body text body pre md hm
      have hno : ∀ g ∈ Split 46 body, 45 ∉ g := by
        intro g hg h45
        have := hbody 45 (split_mem_bytes 46 body g hg 45 h45)
        simp [isDigit] at this
      have hnn := parseSegments_nonneg _ hno segs hp
      refine ⟨?_, ?_⟩
      · intro x hx
        simp only [List.mem_append, List.mem_replicate] at hx
        rcases hx with hx | ⟨_, rfl⟩
        · exact hnn x hx
        · exact le_refl _
      · simp only [List.length_append, List.length_replicate]
        omega

theorem stripMetadata_plain (v : Version) (hpre : v.pre = [])
    (hnn : ∀ x ∈ v.segments, 0 ≤ x) : Plain (stripMetadata v) :=
  ⟨hpre, rfl, hnn⟩

theorem string_plain_bytes (c : Version) (hc : Plain c) :
    ∀ b ∈ c.String, (isDigit b || b == 46) = true := by
  obtain ⟨hc1, hc2, hc3⟩ := hc
  simp only [Version.String, hc1, hc2, ne_eq, not_true_eq_false, if_false, List.append_nil]
  apply join_bytes
  intro ds hds
  obtain ⟨x, hx, rfl⟩ := List.mem_map.mp hds
  exact (formatInt_digits x (hc3 x hx)).2

/-- The metadata of a version without pre-release plays no part in comparing
it with a bound of the table. -/
theorem compare_strip (v c : Version) (hpre : v.pre = [])
    (hnn : ∀ x ∈ v.segments, 0 ≤ x) (hc : Plain c) :
    v.Compare c = (stripMetadata v).Compare c := by
  rw [compare_plain (stripMetadata v) c (stripMetadata_plain v hpre hnn) hc]
  by_cases hm : v.metadata = []
  · exact compare_plain v c ⟨hpre, hm, hnn⟩ hc
  · have hne : v.String ≠ c.String := by
      intro e
      have h43 : (43 : Nat) ∈ v.String := by
        simp only [Version.String, hm, ne_eq, not_false_eq_true, if_true, List.mem_append,
          List.mem_cons, true_or, or_true]
      rw [e] at h43
      have := string_plain_bytes c hc 43 h43
      simp [isDigit] at this
    unfold Version.Compare
    rw [if_neg hne]
    show (if v.segments = c.segments then _ else _) = compareSegments v.segments c.segments
    by_cases hseg : v.segments = c.segments
    · rw [if_pos hseg, if_pos ⟨hpre, hc.1⟩, hseg, compareSegments_self]
    · rw [if_neg hseg]

theorem check_strip_range (v : Version) (hpre : v.pre = [])
    (hnn : ∀ x ∈ v.segments, 0 ≤ x) (j k : Int) (hj : 0 ≤ j) (hk : 0 ≤ k)
    (t u : String) (o p : GoString) :
    Check [⟨.greaterThanEqual, bound j t, o⟩, ⟨.lessThan, bound k u, p⟩] v
      = Check [⟨.greaterThanEqual, bound j t, o⟩, ⟨.lessThan, bound k u, p⟩] (stripMetadata v) := by
  simp only [Check, List.all_cons, List.all_nil, Constraint.Check,
    compare_strip v _ hpre hnn (bound_plain j t hj),
    compare_strip v _ hpre hnn (bound_plain k u hk), prereleaseCheck]
  rfl

theorem check_strip_le (v : Version) (hpre : v.pre = [])
    (hnn : ∀ x ∈ v.segments, 0 ≤ x) (t : String) (o : GoString) :
    Check [⟨.lessThanEqual, bound 0 t, o⟩] v
      = Check [⟨.lessThanEqual, bound 0 t, o⟩] (stripMetadata v) := by
  simp only [Check, List.all_cons, List.all_nil, Constraint.Check,
    compare_strip v _ hpre hnn (bound_plain 0 t (le_refl _)), prereleaseCheck]
  rfl

theorem rowMatches_range (v : Version) (hpre : v.pre = [])
    (hnn : ∀ x ∈ v.segments, 0 ≤ x) (a b c : Int) (rest : List Int)
    (hseg : v.segments = a :: b :: c :: rest) (cstr : GoString) (s : Slice)
    (j k : Int) (hj : 0 ≤ j) (hk : 0 ≤ k) (t u : String) (o p : GoString)
    (hrow : NewConstraint cstr
      = .ok [⟨.greaterThanEqual, bound j t, o⟩, ⟨.lessThan, bound k u, p⟩]) :
    rowMatches v (cstr, s) = decide (a = 1 ∧ j ≤ b ∧ b < k) := by
  unfold rowMatches
  simp only [hrow]
  rw [check_strip_range v hpre hnn j k hj hk,
    check_range (stripMetadata v) (stripMetadata_plain v hpre hnn) a b c rest hseg j k hj hk]

theorem rowMatches_le (v : Version) (hpre : v.pre = [])
    (hnn : ∀ x ∈ v.segments, 0 ≤ x) (a b c : Int) (rest : List Int)
    (hseg : v.segments = a :: b :: c :: rest) (cstr : GoString) (s : Slice)
    (t : String) (o : GoString)
    (hrow : NewConstraint cstr = .ok [⟨.lessThanEqual, bound 0 t, o⟩]) :
    rowMatches v (cstr, s)
      = decide (a < 1 ∨ (a = 1 ∧ b = 0 ∧ (c == 0 && allZero rest) = true)) := by
  unfold rowMatches
  simp only [hrow]
  rw [check_strip_le v hpre hnn,
    check_le (stripMetadata v) (stripMetadata_plain v hpre hnn) a b c rest hseg]

theorem rowMatches_pre (v : Version) (hpre : v.pre ≠ []) (cstr : GoString) (s : Slice)
    (c0 : Constraint) (more : List Constraint)
    (hrow : NewConstraint cstr = .ok (c0 :: more)) (hc0 : c0.check.pre = [])
    (hf : c0.f = .greaterThanEqual ∨ c0.f = .lessThanEqual) :
    rowMatches v (cstr, s) = false := by
  unfold rowMatches
  simp only [hrow]
  have hpc : prereleaseCheck v c0.check = false := by
    simp [prereleaseCheck, hc0, hpre]
  rcases hf with hf | hf <;>
    simp [Check, Constraint.Check, hf, hpc]

/-- A version with a pre-release satisfies no row of the table. -/
theorem rowMatches_pre_all (v : Version) (hpre : v.pre ≠ []) :
    ∀ p ∈ platforms, rowMatches v p = false := by
  intro p hp
  unfold platforms at hp
  simp only [List.mem_cons, List.mem_singleton, List.not_mem_nil, or_false] at hp
  rcases hp with h | h | h | h | h | h | h | h | h | h <;> subst h
  · exact rowMatches_pre v hpre _ _ _ _ newConstraint_row0 rfl (Or.inr rfl)
  · exact rowMatches_pre v hpre _ _ _ _ newConstraint_row1 rfl (Or.inl rfl)
  · exact rowMatches_pre v hpre _ _ _ _ newConstraint_row2 rfl (Or.inl rfl)
  · exact rowMatches_pre v hpre _ _ _ _ newConstraint_row3 rfl (Or.inl rfl)
  · exact rowMatches_pre v hpre _ _ _ _ newConstraint_row4 rfl (Or.inl rfl)
  · exact rowMatches_pre v hpre _ _ _ _ newConstraint_row5 rfl (Or.inl rfl)
  · exact rowMatches_pre v hpre _ _ _ _ newConstraint_row6 rfl (Or.inl rfl)
  · exact rowMatches_pre v hpre _ _ _ _ newConstraint_row7 rfl (Or.inl rfl)
  · exact rowMatches_pre v hpre _ _ _ _ newConstraint_row8 rfl (Or.inl rfl)
  · exact rowMatches_pre v hpre _ _ _ _ newConstraint_row9 rfl (Or.inl rfl)

/-- A row a version without pre-release satisfies is the row `selected`
names. -/
theorem rowMatches_selected (v : Version) (hpre : v.pre = [])
    (hnn : ∀ x ∈ v.segments, 0 ≤ x) (a b c : Int) (rest : List Int)
    (hseg : v.segments = a :: b :: c :: rest) :
    ∀ p ∈ platforms, rowMatches v p = true →
      selected a b (c == 0 && allZero rest) = some p := by
  intro p hp hm
  unfold platforms at hp
  simp only [List.mem_cons, List.mem_singleton, List.not_mem_nil, or_false] at hp
  rcases hp with h | h | h | h | h | h | h | h | h | h <;> subst h
  · rw [rowMatches_le v hpre hnn a b c rest hseg _ _ _ _ newConstraint_row0] at hm
    unfold selected
    rw [if_pos (of_decide_eq_true hm)]
  · have hm2 := hm
    rw [rowMatches_range v hpre hnn a b c rest hseg _ _ 1 3 (by norm_num) (by norm_num)
      _ _ _ _ newConstraint_row1] at hm2
    have hcond := of_decide_eq_true hm2
    have hfirst : ¬ (a < 1 ∨ (a = 1 ∧ b = 0 ∧ (c == 0 && allZero rest) = true)) := by
      rintro (h | ⟨_, h, _⟩) <;> omega
    unfold selected
    rw [if_neg hfirst, if_pos hcond]
  · have hm2 := hm
    rw [rowMatches_range v hpre hnn a b c rest hseg _ _ 3 4 (by norm_num) (by norm_num)
      _ _ _ _ newConstraint_row2] at hm2
    have hcond := of_decide_eq_true hm2
    have hfirst : ¬ (a < 1 ∨ (a = 1 ∧ b = 0 ∧ (c == 0 && allZero rest) = true)) := by
      rintro (h | ⟨_, h, _⟩) <;> omega
    unfold selected
    rw [if_neg hfirst]
    repeat (first
      | rw [if_pos hcond]
      | rw [if_neg (by omega)])
  · have hm2 := hm
    rw [rowMatches_range v hpre hnn a b c rest hseg _ _ 4 5 (by norm_num) (by norm_num)
      _ _ _ _ newConstraint_row3] at hm2
    have hcond := of_decide_eq_true hm2
    have hfirst : ¬ (a < 1 ∨ (a = 1 ∧ b = 0 ∧ (c == 0 && allZero rest) = true)) := by
      rintro (h | ⟨_, h, _⟩) <;> omega
    unfold selected
    rw [if_neg hfirst]
    repeat (first
      | rw [if_pos hcond]
      | rw [if_neg (by omega)])
  · have hm2 := hm
    rw [rowMatches_range v hpre hnn a b c rest hseg _ _ 5 6 (by norm_num) (by norm_num)
      _ _ _ _ newConstraint_row4] at hm2
    have hcond := of_decide_eq_true hm2
    have hfirst : ¬ (a < 1 ∨ (a = 1 ∧ b = 0 ∧ (c == 0 && allZero rest) = true)) := by
      rintro (h | ⟨_, h, _⟩) <;> omega
    unfold selected
    rw [if_neg hfirst]
    repeat (first
      | rw [if_pos hcond]
      | rw [if_neg (by omega)])
  · have hm2 := hm
    rw [rowMatches_range v hpre hnn a b c rest hseg _ _ 6 7 (by norm_num) (by norm_num)
      _ _ _ _ newConstraint_row5] at hm2
    have hcond := of_decide_eq_true hm2
    have hfirst : ¬ (a < 1 ∨ (a = 1 ∧ b = 0 ∧ (c == 0 && allZero rest) = true)) := by
      rintro (h | ⟨_, h, _⟩) <;> omega
    unfold selected
    rw [if_neg hfirst]
    repeat (first
      | rw [if_pos hcond]
      | rw [if_neg (by omega)])
  · have hm2 := hm
    rw [rowMatches_range v hpre hnn a b c rest hseg _ _ 7 8 (by norm_num) (by norm_num)
      _ _ _ _ newConstraint_row6] at hm2
    have hcond := of_decide_eq_true hm2
    have hfirst : ¬ (a < 1 ∨ (a = 1 ∧ b = 0 ∧ (c == 0 && allZero rest) = true)) := by
      rintro (h | ⟨_, h, _⟩) <;> omega
    unfold selected
    rw [if_neg hfirst]
    repeat (first
      | rw [if_pos hcond]
      | rw [if_neg (by omega)])
  · have hm2 := hm
    rw [rowMatches_range v hpre hnn a b c rest hseg _ _ 8 9 (by norm_num) (by norm_num)
      _ _ _ _ newConstraint_row7] at hm2
    have hcond := of_decide_eq_true hm2
    have hfirst : ¬ (a < 1 ∨ (a = 1 ∧ b = 0 ∧ (c == 0 && allZero rest) = true)) := by
      rintro (h | ⟨_, h, _⟩) <;> omega
    unfold selected
    rw [if_neg hfirst]
    repeat (first
      | rw [if_pos hcond]
      | rw [if_neg (by omega)])
  · have hm2 := hm
    rw [rowMatches_range v hpre hnn a b c rest hseg _ _ 9 10 (by norm_num) (by norm_num)
      _ _ _ _ newConstraint_row8] at hm2
    have hcond := of_decide_eq_true hm2
    have hfirst : ¬ (a < 1 ∨ (a = 1 ∧ b = 0 ∧ (c == 0 && allZero rest) = true)) := by
      rintro (h | ⟨_, h, _⟩) <;> omega
    unfold selected
    rw [if_neg hfirst]
    repeat (first
      | rw [if_pos hcond]
      | rw [if_neg (by omega)])
  · have hm2 := hm
    rw [rowMatches_range v hpre hnn a b c rest hseg _ _ 10 11 (by norm_num) (by norm_num)
      _ _ _ _ newConstraint_row9] at hm2
    have hcond := of_decide_eq_true hm2
    have hfirst : ¬ (a < 1 ∨ (a = 1 ∧ b = 0 ∧ (c == 0 && allZero rest) = true)) := by
      rintro (h | ⟨_, h, _⟩) <;> omega
    unfold selected
    rw [if_neg hfirst]
    repeat (first
      | rw [if_pos hcond]
      | rw [if_neg (by omega)])

theorem rows_exclusive (text : GoString) (v : Version) (h : NewVersion text = .ok v) :
    ∀ p ∈ platforms, ∀ q ∈ platforms,
      rowMatches v p = true → rowMatches v q = true → p = q := by
  intro p hp q hq hmp hmq
  obtain ⟨hnn, hlen⟩ := newVersion_segments text v h
  by_cases hpre : v.pre = []
  · match hseg : v.segments, hlen with
    | a :: b :: c :: rest, _ =>
      have e1 := rowMatches_selected v hpre hnn a b c rest hseg p hp hmp
      have e2 := rowMatches_selected v hpre hnn a b c rest hseg q hq hmq
      rw [e1] at e2
      injection e2
  · rw [rowMatches_pre_all v hpre p hp] at hmp
    exact absurd hmp (by simp)

/-- C14: for every version NewVersion builds, at most one row of the table
has a constraint that holds for it, and the loop of SupportedPlatforms returns
the same slice whatever the order of the rows. -/
theorem C14_rows_exclusive (text : GoString) (v : Version)
    (h : NewVersion text = .ok v) :
    (∀ p ∈ platforms, ∀ q ∈ platforms,
        rowMatches v p = true → rowMatches v q = true → p = q)
      ∧ (∀ rows, List.Perm rows platforms → scan v rows = scan v platforms) :=
  ⟨rows_exclusive text v h,
   fun rows hperm => scan_perm v rows hperm (rows_exclusive text v h)⟩

theorem C14_rows_exclusive_witness :
    NewVersion (str "1.2") = .ok (plainVersion [str "1", str "2"])
      ∧ rowMatches (plainVersion [str "1", str "2"]) (str ">= 1.1, < 1.3", Platforms_1_1) = true
      ∧ scan (plainVersion [str "1", str "2"]) platforms.reverse
          = scan (plainVersion [str "1", str "2"]) platforms :=
  ⟨rfl, by decide,
   (C14_rows_exclusive (str "1.2") (plainVersion [str "1", str "2"]) rfl).2
      platforms.reverse (List.reverse_perm platforms)⟩

/-! ### The gap between 1.0 and 1.1 -/

theorem segAt_pos_lt (v : List Nat) (i : Nat) (h : 0 < segAt v i) : i < v.length := by
  by_contra hlt
  unfold segAt at h
  rw [List.getD_eq_default _ _ (by omega)] at h
  omega

theorem verLE_one_zero_iff (v : List Nat) :
    verLE v [1, 0] ↔
      segAt v 0 < 1 ∨ (segAt v 0 = 1 ∧ segAt v 1 = 0 ∧ ∀ i, 2 ≤ i → segAt v i = 0) := by
  constructor
  · intro hle
    by_contra hno
    apply hle
    by_cases ha : 1 < segAt v 0
    · exact ⟨0, by simp, by simp, by simpa [segAt_pair] using ha⟩
    · have ha1 : segAt v 0 = 1 := by omega
      by_cases hb : 0 < segAt v 1
      · refine ⟨1, by simp, ?_, by simpa [segAt_pair] using hb⟩
        intro j hj
        have : j = 0 := by omega
        subst this
        simpa [segAt_pair] using ha1.symm
      · have hb0 : segAt v 1 = 0 := by omega
        have hex : ∃ i, 2 ≤ i ∧ segAt v i ≠ 0 := by
          by_contra hall
          apply hno
          right
          refine ⟨ha1, hb0, ?_⟩
          intro i hi
          by_contra hne
          exact hall ⟨i, hi, hne⟩
        have hmin : ∀ m, m < Nat.find hex → ¬ (2 ≤ m ∧ segAt v m ≠ 0) :=
          fun m hm => Nat.find_min hex hm
        obtain ⟨h2, hne⟩ := Nat.find_spec hex
        refine ⟨Nat.find hex, ?_, ?_, ?_⟩
        · have := segAt_pos_lt v (Nat.find hex) (by omega)
          exact lt_max_of_lt_right this
        · intro j hj
          match j, hj with
          | 0, _ => simpa [segAt_pair] using ha1.symm
          | 1, _ => simpa [segAt_pair] using hb0.symm
          | k + 2, hk =>
            have := hmin (k + 2) hk
            simp only [not_and, not_not] at this
            rw [this (by omega)]
            simp [segAt_pair]
        · have e : segAt [1, 0] (Nat.find hex) = 0 := by
            rw [segAt_pair, if_neg (by omega), if_neg (by omega)]
          rw [e]
          omega
  · rintro hr hlt
    rcases verLT_pair_left v 1 0 hlt with h | ⟨h1, h2⟩ | ⟨h1, h2, i, hi, hpos⟩
    · omega
    · omega
    · rcases hr with h | ⟨_, _, hall⟩
      · omega
      · have := hall i hi
        omega

theorem selected_none_of_no_row (a b : Int) (z : Bool)
    (h1 : ¬ (a < 1 ∨ (a = 1 ∧ b = 0 ∧ z = true))) (h2 : ¬ (a = 1 ∧ 1 ≤ b ∧ b < 11)) :
    selected a b z = none ∧ resolve a b z = Platforms_1_9 := by
  unfold selected resolve
  rw [if_neg h1, if_neg h1]
  constructor
  · repeat rw [if_neg (by omega)]
  · repeat rw [if_neg (by omega)]

theorem no_row_of_selected_none (v : Version) (hpre : v.pre = [])
    (hnn : ∀ x ∈ v.segments, 0 ≤ x) (a b c : Int) (rest : List Int)
    (hseg : v.segments = a :: b :: c :: rest)
    (hsel : selected a b (c == 0 && allZero rest) = none) :
    ∀ p ∈ platforms, rowMatches v p = false := by
  intro p hp
  cases hm : rowMatches v p with
  | false => rfl
  | true =>
    have := rowMatches_selected v hpre hnn a b c rest hseg p hp hm
    rw [hsel] at this
    exact absurd this (by simp)

/-- C18 as stated fails in its second half: "0.9223372036854775808" is
dotted decimal text with v <= 1.0 (a 0.x version), but its second segment does
not fit int64, so NewVersion rejects it and SupportedPlatforms logs the error
and returns PlatformsLatest (39 entries), not Platforms_1_0 (11). -/
theorem C18_counterexample :
    DigitGroups [str "0", str "9223372036854775808"]
      ∧ verLE ([str "0", str "9223372036854775808"].map decVal) [1, 0]
      ∧ SupportedPlatforms (str "go0.9223372036854775808")
          = ⟨[(str "0.9223372036854775808",
                .parsingVersion (str "9223372036854775808"))], .value PlatformsLatest⟩
      ∧ PlatformsLatest ≠ Platforms_1_0
      ∧ (elems PlatformsLatest).length = 39 ∧ (elems Platforms_1_0).length = 11 := by
  decide

/-- C18 amended: for every input "go"+v where v is dotted decimal text with
1.0 < v < 1.1, SupportedPlatforms returns the fallback Platforms_1_9 (39
entries, not Platforms_1_0); when v parses no row holds for it and nothing is
logged.  For every such text with v <= 1.0 whose segments each fit int64 (are
below 2^63) the first row holds and SupportedPlatforms returns
Platforms_1_0. -/
theorem C18_gap_below_1_1 (dss : List GoString) (hdss : DigitGroups dss) :
    (verLT [1, 0] (dss.map decVal) → verLT (dss.map decVal) [1, 1] →
        (SupportedPlatforms (str "go" ++ Join [46] dss)).result = .value Platforms_1_9
          ∧ ∀ current, NewVersion (Join [46] dss) = .ok current →
              (∀ p ∈ platforms, rowMatches current p = false)
              ∧ SupportedPlatforms (str "go" ++ Join [46] dss) = ⟨[], .value Platforms_1_9⟩)
      ∧ ((∀ ds ∈ dss, decVal ds < 2 ^ 63) → verLE (dss.map decVal) [1, 0] →
          SupportedPlatforms (str "go" ++ Join [46] dss) = ⟨[], .value Platforms_1_0⟩
            ∧ rowMatches (plainVersion dss) (str "<= 1.0", Platforms_1_0) = true)
      ∧ (elems Platforms_1_9).length = 39 ∧ Platforms_1_9 ≠ Platforms_1_0 := by
  obtain ⟨c, rest, hseg, hz⟩ := plain_segments dss hdss.1
  have hpl := plainVersion_plain dss
  refine ⟨?_, ?_, by decide, by decide⟩
  · intro hgt hlt
    have hA := (verLT_pair_iff (dss.map decVal) 1 1).mp hlt
    have hB := verLT_pair_left (dss.map decVal) 1 0 hgt
    have h0 : segAt (dss.map decVal) 0 = 1 := by omega
    have h1 : segAt (dss.map decVal) 1 = 0 := by omega
    have hzf : (c == 0 && allZero rest) = false := by
      cases hzz : (c == 0 && allZero rest) with
      | false => rfl
      | true =>
        have hall := hz.mp hzz
        rcases hB with h | ⟨_, h⟩ | ⟨_, _, i, hi, hpos⟩
        · omega
        · omega
        · have := hall i hi
          omega
    have hnone := selected_none_of_no_row
      ((segAt (dss.map decVal) 0 : Nat) : Int) ((segAt (dss.map decVal) 1 : Nat) : Int)
      (c == 0 && allZero rest)
      (by rw [hzf, h0, h1]; simp) (by rw [h0, h1]; simp)
    have hparsed : ∀ current, NewVersion (Join [46] dss) = .ok current →
        (∀ p ∈ platforms, rowMatches current p = false)
        ∧ SupportedPlatforms (str "go" ++ Join [46] dss) = ⟨[], .value Platforms_1_9⟩ := by
      intro current hok
      obtain ⟨h64, rfl⟩ := newVersion_ok_inv dss hdss current hok
      refine ⟨no_row_of_selected_none _ hpl.1 hpl.2.2 _ _ c rest hseg hnone.1, ?_⟩
      rw [supported_go, hok]
      simp only
      rw [scan_plain (plainVersion dss) hpl _ _ c rest hseg, hnone.2]
    refine ⟨?_, hparsed⟩
    cases hnv : NewVersion (Join [46] dss) with
    | error e =>
      rw [supported_go, hnv]
      rfl
    | ok current => rw [(hparsed current hnv).2]
  · intro h64 hle
    have hcond := (verLE_one_zero_iff (dss.map decVal)).mp hle
    have hfirst : ((segAt (dss.map decVal) 0 : Nat) : Int) < 1
        ∨ (((segAt (dss.map decVal) 0 : Nat) : Int) = 1
          ∧ ((segAt (dss.map decVal) 1 : Nat) : Int) = 0
          ∧ (c == 0 && allZero rest) = true) := by
      rcases hcond with h | ⟨h0, h1, hall⟩
      · left; omega
      · right
        exact ⟨by omega, by omega, hz.mpr hall⟩
    constructor
    · rw [supported_go, newVersion_plain dss hdss h64]
      simp only
      rw [scan_plain (plainVersion dss) hpl _ _ c rest hseg]
      unfold resolve
      rw [if_pos hfirst]
    · rw [rowMatches_le (plainVersion dss) hpl.1 hpl.2.2 _ _ c rest hseg _ _ _ _
        newConstraint_row0]
      exact decide_eq_true hfirst

theorem C18_gap_below_1_1_witness :
    ((SupportedPlatforms (str "go1.0.3")).result = .value Platforms_1_9
      ∧ SupportedPlatforms (str "go1.0.3") = ⟨[], .value Platforms_1_9⟩)
    ∧ SupportedPlatforms (str "go0.9.1") = ⟨[], .value Platforms_1_0⟩
    ∧ SupportedPlatforms (str "go1.0") = ⟨[], .value Platforms_1_0⟩ :=
  ⟨⟨((C18_gap_below_1_1 [str "1", str "0", str "3"] (by decide)).1 (by decide) (by decide)).1,
    (((C18_gap_below_1_1 [str "1", str "0", str "3"] (by decide)).1 (by decide) (by decide)).2
      (plainVersion [str "1", str "0", str "3"]) rfl).2⟩,
   ((C18_gap_below_1_1 [str "0", str "9", str "1"] (by decide)).2.1 (by decide) (by decide)).1,
   ((C18_gap_below_1_1 [str "1", str "0"] (by decide)).2.1 (by decide) (by decide)).1⟩

/-! ### The three fallback paths -/

theorem scan_no_row (v : Version) (h : ∀ p ∈ platforms, rowMatches v p = false) :
    scan v platforms = .value Platforms_1_9 := by
  rw [scan_eq_find v platforms platforms_well_formed]
  have : platforms.find? (rowMatches v) = none := by
    rw [List.find?_eq_none]
    intro x hx
    rw [h x hx]
    exact Bool.false_ne_true
  rw [this]

/-- C19: Platforms_1_8, Platforms_1_9, Platforms_1_10 and PlatformsLatest are
one and the same slice of 39 entries, so SupportedPlatforms returns the same
slice on its three fallback paths: no "go" tag, a version that does not parse,
no row that holds. -/
theorem C19_fallbacks_agree :
    (Platforms_1_8 = Platforms_1_9 ∧ Platforms_1_9 = Platforms_1_10
        ∧ Platforms_1_10 = PlatformsLatest ∧ (elems PlatformsLatest).length = 39)
      ∧ (∀ v, HasPrefix v (str "go") = false →
          (SupportedPlatforms v).result = .value PlatformsLatest)
      ∧ (∀ v err, HasPrefix v (str "go") = true → NewVersion (v.drop 2) = .error err →
          (SupportedPlatforms v).result = .value PlatformsLatest)
      ∧ (∀ v current, HasPrefix v (str "go") = true → NewVersion (v.drop 2) = .ok current →
          (∀ p ∈ platforms, rowMatches current p = false) →
          (SupportedPlatforms v).result = .value PlatformsLatest) := by
  refine ⟨⟨rfl, rfl, rfl, by decide⟩, ?_, ?_, ?_⟩
  · intro v h
    unfold SupportedPlatforms
    simp [h]
  · intro v err h he
    unfold SupportedPlatforms
    simp [h, he]
  · intro v current h hok hno
    unfold SupportedPlatforms
    simp only [h, Bool.not_true, Bool.false_eq_true, if_false, hok]
    rw [scan_no_row current hno]
    rfl

theorem C19_fallbacks_agree_witness :
    (SupportedPlatforms (str "nonsense")).result = .value PlatformsLatest
      ∧ (SupportedPlatforms (str "gofoo")).result = .value PlatformsLatest
      ∧ (SupportedPlatforms (str "go9.9.9")).result = .value PlatformsLatest :=
  ⟨C19_fallbacks_agree.2.1 (str "nonsense") (by decide),
   C19_fallbacks_agree.2.2.1 (str "gofoo") (.malformedVersion (str "foo")) (by decide) rfl,
   C19_fallbacks_agree.2.2.2 (str "go9.9.9") (plainVersion [str "9", str "9", str "9"])
     (by decide) rfl (by decide)⟩

end Gox
